import Mathlib

/-!
Verification development for the claudecodeui agent gateway.

The TypeScript sources are shallowly embedded: JS `Map`s and plain objects
become insertion-ordered association lists, `process.env` becomes a function
`String → Option String`, ISO timestamps become natural numbers (milliseconds,
order-isomorphic to `Date.getTime()`), and `JSON.parse` of a log line becomes
an abstract parse oracle `String → Option LogEntry`.  JS truthiness of
optional strings (`undefined`, `null` and `""` are falsy) is modelled
explicitly.
-/

/-- JS truthiness of an optional string value: absent and empty strings are falsy. -/
def jsTruthy : Option String → Bool
  | some s => s ≠ ""
  | none => false

/-- JS `Map.set` / object property assignment: replace the value in place when the
key already exists (insertion order preserved), otherwise append the pair. -/
def mapSet {α : Type} (m : List (String × α)) (k : String) (v : α) : List (String × α) :=
  if m.any (fun p => p.1 = k) then
    m.map (fun p => if p.1 = k then (k, v) else p)
  else m ++ [(k, v)]

/-- JS `Map.delete`: remove the entry with the given key. -/
def mapDelete {α : Type} (m : List (String × α)) (k : String) : List (String × α) :=
  m.filter (fun p => p.1 ≠ k)

/-- Lookup of the last binding of a key in an association list.  On lists with
no duplicate keys (JS objects and `Map`s) this agrees with `List.lookup`. -/
def lookupLast {α : Type} : List (String × α) → String → Option α
  | [], _ => none
  | p :: rest, k =>
    match lookupLast rest k with
    | some v => some v
    | none => if p.1 = k then some p.2 else none

theorem lookup_map_keep {α : Type} (m : List (String × α)) (k k' : String) (v : α)
    (hne : k' ≠ k) :
    List.lookup k' (m.map (fun p => if p.1 = k then (k, v) else p)) = List.lookup k' m := by
  induction m with
  | nil => rfl
  | cons p rest ih =>
    obtain ⟨p1, p2⟩ := p
    rw [List.map_cons]
    by_cases hp : (p1, p2).1 = k
    · rw [if_pos hp]
      simp only at hp
      subst hp
      have h1 : (k' == p1) = false := beq_false_of_ne hne
      simp [List.lookup, h1, ih]
    · rw [if_neg hp]
      by_cases hk' : k' = p1
      · simp [List.lookup, hk']
      · have h1 : (k' == p1) = false := beq_false_of_ne hk'
        simp [List.lookup, h1, ih]

theorem lookup_map_set_of_any {α : Type} (m : List (String × α)) (k : String) (v : α)
    (h : m.any (fun p => p.1 = k) = true) :
    List.lookup k (m.map (fun p => if p.1 = k then (k, v) else p)) = some v := by
  induction m with
  | nil => simp at h
  | cons p rest ih =>
    obtain ⟨p1, p2⟩ := p
    rw [List.map_cons]
    by_cases hp : (p1, p2).1 = k
    · rw [if_pos hp]
      simp [List.lookup]
    · rw [if_neg hp]
      simp only [List.any_cons, Bool.or_eq_true, decide_eq_true_eq] at h
      rcases h with h | h
      · exact absurd h hp
      · have h1 : (k == p1) = false := by
          apply beq_false_of_ne
          intro hkp
          exact hp hkp.symm
        simp [List.lookup, h1, ih h]

theorem lookup_append_single {α : Type} (m : List (String × α)) (k : String) (v : α)
    (h : m.any (fun p => p.1 = k) = false) :
    List.lookup k (m ++ [(k, v)]) = some v := by
  induction m with
  | nil => simp [List.lookup]
  | cons p rest ih =>
    obtain ⟨p1, p2⟩ := p
    simp only [List.any_cons, Bool.or_eq_false_iff, decide_eq_false_iff_not] at h
    have h1 : (k == p1) = false := by
      apply beq_false_of_ne
      intro hkp
      exact h.1 hkp.symm
    simp only [List.cons_append, List.lookup, h1]
    exact ih h.2

theorem lookup_append_single_ne {α : Type} (m : List (String × α)) (k k' : String) (v : α)
    (hne : k' ≠ k) :
    List.lookup k' (m ++ [(k, v)]) = List.lookup k' m := by
  induction m with
  | nil =>
    have h1 : (k' == k) = false := beq_false_of_ne hne
    simp [List.lookup, h1]
  | cons p rest ih =>
    obtain ⟨p1, p2⟩ := p
    by_cases hk' : k' = p1
    · simp [List.lookup, hk']
    · have h1 : (k' == p1) = false := beq_false_of_ne hk'
      simp [List.lookup, h1, ih]

/-- Lookup after a `mapSet`: the written key reads back the new value, other keys
are untouched. -/
theorem lookup_mapSet {α : Type} (m : List (String × α)) (k k' : String) (v : α) :
    List.lookup k' (mapSet m k v) = if k' = k then some v else List.lookup k' m := by
  by_cases hany : m.any (fun p => p.1 = k) = true
  · by_cases hk : k' = k
    · subst hk
      simp [mapSet, hany, lookup_map_set_of_any m k' v hany]
    · simp [mapSet, hany, lookup_map_keep m k k' v hk, hk]
  · have hany' : m.any (fun p => p.1 = k) = false := by
      simp only [Bool.not_eq_true] at hany
      exact hany
    by_cases hk : k' = k
    · subst hk
      simp [mapSet, hany', lookup_append_single m k' v hany']
    · simp [mapSet, hany', lookup_append_single_ne m k k' v hk, hk]

/-! ## Env store (claudeEnvMemory.ts) -/

/-- One entry of the in-memory agent env store (`ClaudeEnvVar` in claudeEnvMemory.ts).
The ISO timestamps `created_at` / `updated_at` are modelled as naturals. -/
structure ClaudeEnvVar where
  key : String
  value : String
  description : Option String
  created_at : Nat
  updated_at : Nat
deriving DecidableEq

/-- Embedding of `setClaudeEnvVar` (claudeEnvMemory.ts, lines 39-53): upsert into the
store, preserving `created_at` of an existing entry (`existing?.created_at || now`).
The wall clock `new Date().toISOString()` is the parameter `now`. -/
def setClaudeEnvVar (store : List (String × ClaudeEnvVar)) (now : Nat)
    (key value : String) (description : Option String) :
    ClaudeEnvVar × List (String × ClaudeEnvVar) :=
  let existing := List.lookup key store
  let envVar : ClaudeEnvVar :=
    { key := key, value := value, description := description,
      created_at := match existing with
        | some e => e.created_at
        | none => now,
      updated_at := now }
  (envVar, mapSet store key envVar)

/-- Embedding of `getClaudeEnvAsRecord` (claudeEnvMemory.ts): the unmasked key/value
record of the whole store, in store order. -/
def getClaudeEnvAsRecord (store : List (String × ClaudeEnvVar)) : List (String × String) :=
  store.map (fun p => (p.1, p.2.value))

/-! ## Environment construction for the spawned agent (claudeCliService.ts, lines 315-348) -/

/-- The eight whitelisted host environment variables (`essentialVars` in spawnClaude). -/
def essentialVars : List String :=
  ["PATH", "HOME", "USER", "SHELL", "TERM", "TMPDIR", "LANG", "LC_ALL"]

/-- JS `Object.assign(target, source)`: assign every source pair onto the target in order. -/
def objectAssign (target source : List (String × String)) : List (String × String) :=
  source.foldl (fun acc p => mapSet acc p.1 p.2) target

/-- One step of the whitelist copy loop: `if (process.env[key]) claudeEnv[key] = process.env[key]`
(the JS truthiness test skips variables that are absent or bound to the empty string). -/
def essentialStep (hostEnv : String → Option String)
    (acc : List (String × String)) (key : String) : List (String × String) :=
  match hostEnv key with
  | some v => if v = "" then acc else mapSet acc key v
  | none => acc

/-- Embedding of the isolated environment construction in `spawnClaude`
(claudeCliService.ts, lines 315-348): start empty, copy the whitelisted host
variables that are truthy, `Object.assign` the memory store record on top,
then `Object.assign` the per-request `options.env` (absent = `[]`) on top. -/
def buildClaudeEnv (hostEnv : String → Option String)
    (store : List (String × ClaudeEnvVar)) (extraEnv : List (String × String)) :
    List (String × String) :=
  let base := essentialVars.foldl (essentialStep hostEnv) []
  objectAssign (objectAssign base (getClaudeEnvAsRecord store)) extraEnv

/-- Child environment exactly as claim C1 words it (spec: copy the whitelisted host
variables when present, layer the store record, layer `extraEnv` on top).  Written
from the spec's words, to be compared with `buildClaudeEnv`. -/
def claimedChildEnv (hostEnv : String → Option String)
    (store : List (String × ClaudeEnvVar)) (extraEnv : List (String × String))
    (k : String) : Option String :=
  match lookupLast extraEnv k with
  | some v => some v
  | none =>
    match lookupLast (getClaudeEnvAsRecord store) k with
    | some v => some v
    | none => if k ∈ essentialVars then hostEnv k else none

/-- A host environment whose only variable is `TMPDIR`, present but empty. -/
def hostWithEmptyTmpdir : String → Option String :=
  fun k => if k = "TMPDIR" then some "" else none

theorem lookup_objectAssign (source : List (String × String)) :
    ∀ (target : List (String × String)) (k : String),
      List.lookup k (objectAssign target source) =
        match lookupLast source k with
        | some v => some v
        | none => List.lookup k target := by
  induction source with
  | nil => intro target k; rfl
  | cons p rest ih =>
    intro target k
    show List.lookup k (objectAssign (mapSet target p.1 p.2) rest) = _
    rw [ih]
    cases hrest : lookupLast rest k with
    | some v => simp [lookupLast, hrest]
    | none =>
      rw [lookup_mapSet]
      by_cases hk : k = p.1
      · rw [if_pos hk]
        simp only [lookupLast, hrest, if_pos hk.symm]
      · rw [if_neg hk]
        have hne : ¬ (p.1 = k) := fun h => hk h.symm
        simp only [lookupLast, hrest, if_neg hne]

theorem lookup_essential_foldl (hostEnv : String → Option String) (keys : List String) :
    ∀ (acc : List (String × String)) (k : String),
      List.lookup k (keys.foldl (essentialStep hostEnv) acc) =
        if k ∈ keys then
          match hostEnv k with
          | some v => if v = "" then List.lookup k acc else some v
          | none => List.lookup k acc
        else List.lookup k acc := by
  induction keys with
  | nil => intro acc k; simp
  | cons key rest ih =>
    intro acc k
    show List.lookup k (rest.foldl (essentialStep hostEnv) (essentialStep hostEnv acc key)) = _
    have hacc : List.lookup k (essentialStep hostEnv acc key) =
        if k = key then
          match hostEnv key with
          | some w => if w = "" then List.lookup k acc else some w
          | none => List.lookup k acc
        else List.lookup k acc := by
      cases hv' : hostEnv key with
      | some w =>
        by_cases hwe : w = ""
        · simp [essentialStep, hv', hwe]
        · simp [essentialStep, hv', hwe, lookup_mapSet]
      | none => simp [essentialStep, hv']
    rw [ih, hacc]
    by_cases hk : k = key
    · subst hk
      have hm : k ∈ k :: rest := List.mem_cons_self _ _
      rw [if_pos rfl, if_pos hm]
      by_cases hmem : k ∈ rest
      · rw [if_pos hmem]
        cases hv : hostEnv k with
        | some v =>
          by_cases hve : v = ""
          · simp [hv, hve]
          · simp [hv, hve]
        | none => simp [hv]
      · rw [if_neg hmem]
    · rw [if_neg hk]
      by_cases hmem : k ∈ rest
      · have hm : k ∈ key :: rest := List.mem_cons_of_mem _ hmem
        rw [if_pos hmem, if_pos hm]
      · have hm : k ∉ key :: rest := by
          simp [List.mem_cons, hk, hmem]
        rw [if_neg hmem, if_neg hm]

theorem essential_foldl_congr (h₁ h₂ : String → Option String) (keys : List String) :
    ∀ (acc : List (String × String)), (∀ e ∈ keys, h₁ e = h₂ e) →
      keys.foldl (essentialStep h₁) acc = keys.foldl (essentialStep h₂) acc := by
  induction keys with
  | nil => intro acc _; rfl
  | cons key rest ih =>
    intro acc hagree
    show rest.foldl (essentialStep h₁) (essentialStep h₁ acc key) = _
    have hkey : h₁ key = h₂ key := hagree key (List.mem_cons_self _ _)
    have hstep : essentialStep h₁ acc key = essentialStep h₂ acc key := by
      simp [essentialStep, hkey]
    rw [hstep]
    exact ih _ (fun e he => hagree e (List.mem_cons_of_mem _ he))

/-- A host environment that carries only `ANTHROPIC_TOKEN` (not whitelisted). -/
def hostWithToken : String → Option String :=
  fun k => if k = "ANTHROPIC_TOKEN" then some "host" else none

/-- The empty host environment. -/
def hostEmpty : String → Option String := fun _ => none

/-- C1 counterexample: the whitelist copy uses a JS truthiness test, so a whitelisted
host variable that is present but bound to the empty string is dropped, while the
claim says the host's value for every present whitelisted key is copied.  Host has
`TMPDIR=""`: the claim gives the child `TMPDIR=""`, the code gives the child no
`TMPDIR` at all. -/
theorem buildClaudeEnv_drops_empty_whitelisted :
    claimedChildEnv hostWithEmptyTmpdir [] [] "TMPDIR" = some "" ∧
    List.lookup "TMPDIR" (buildClaudeEnv hostWithEmptyTmpdir [] []) = none := by
  constructor
  · rfl
  · rfl

/-- C1 (amended): the child environment is exactly the host's values for the eight
whitelisted keys when present with a non-empty value, overlaid by the full unmasked
env store record, overlaid by the per-request extra env (highest precedence); and
the construction depends on the host environment only at the whitelisted keys, so
two hosts differing in any non-whitelisted variable spawn identical child
environments. -/
theorem buildClaudeEnv_isolation :
    (∀ (hostEnv : String → Option String) (store : List (String × ClaudeEnvVar))
        (extraEnv : List (String × String)) (k : String),
      List.lookup k (buildClaudeEnv hostEnv store extraEnv) =
        match lookupLast extraEnv k with
        | some v => some v
        | none =>
          match lookupLast (getClaudeEnvAsRecord store) k with
          | some v => some v
          | none =>
            if k ∈ essentialVars then
              match hostEnv k with
              | some v => if v = "" then none else some v
              | none => none
            else none) ∧
    (∀ (h₁ h₂ : String → Option String) (store : List (String × ClaudeEnvVar))
        (extraEnv : List (String × String)),
      (∀ e ∈ essentialVars, h₁ e = h₂ e) →
      buildClaudeEnv h₁ store extraEnv = buildClaudeEnv h₂ store extraEnv) := by
  constructor
  · intro hostEnv store extraEnv k
    show List.lookup k (objectAssign (objectAssign _ _) extraEnv) = _
    rw [lookup_objectAssign, lookup_objectAssign, lookup_essential_foldl]
    cases lookupLast extraEnv k with
    | some v => rfl
    | none =>
      cases lookupLast (getClaudeEnvAsRecord store) k with
      | some v => rfl
      | none =>
        by_cases hmem : k ∈ essentialVars
        · rw [if_pos hmem, if_pos hmem]
          cases hostEnv k with
          | some v =>
            by_cases hve : v = ""
            · simp [hve, List.lookup]
            · simp [hve]
          | none => simp [List.lookup]
        · rw [if_neg hmem, if_neg hmem]
          rfl
  · intro h₁ h₂ store extraEnv hagree
    show objectAssign (objectAssign (essentialVars.foldl (essentialStep h₁) []) _) _ = _
    rw [essential_foldl_congr h₁ h₂ essentialVars [] hagree]
    rfl

/-- C1 witness: with `ANTHROPIC_TOKEN=store` in the env store, the child sees
`store`; and a host with `ANTHROPIC_TOKEN=host` spawns the same child environment
as a host without it. -/
theorem buildClaudeEnv_isolation_witness :
    List.lookup "ANTHROPIC_TOKEN"
      (buildClaudeEnv hostWithToken
        [("ANTHROPIC_TOKEN",
          { key := "ANTHROPIC_TOKEN", value := "store", description := none,
            created_at := 0, updated_at := 0 })] []) = some "store" ∧
    buildClaudeEnv hostWithToken [] [] = buildClaudeEnv hostEmpty [] [] := by
  constructor
  · rw [buildClaudeEnv_isolation.1 hostWithToken _ [] "ANTHROPIC_TOKEN"]
    rfl
  · exact buildClaudeEnv_isolation.2 hostWithToken hostEmpty [] [] (by decide)

/-- C9 counterexample: `setClaudeEnvVar` performs no key validation.  Called with the
empty key on an empty store it does not fail: it returns an entry whose key is `""`
and the store afterwards holds an entry keyed by the empty string, contradicting the
claim that the call fails with `InvalidArgument` and leaves the store unchanged. -/
theorem setClaudeEnvVar_empty_key_creates_entry :
    (setClaudeEnvVar [] 0 "" "v" none).2 =
      [("", { key := "", value := "v", description := none, created_at := 0,
              updated_at := 0 })] := by
  rfl

/-- C9 (amended): `setClaudeEnvVar` with an empty key succeeds like any other key:
it returns an entry with empty key and upserts it, so the store afterwards maps the
empty string to that entry. -/
theorem setClaudeEnvVar_empty_key_upserts (store : List (String × ClaudeEnvVar))
    (now : Nat) (value : String) (description : Option String) :
    (setClaudeEnvVar store now "" value description).1.key = "" ∧
    List.lookup "" (setClaudeEnvVar store now "" value description).2 =
      some (setClaudeEnvVar store now "" value description).1 := by
  constructor
  · rfl
  · show List.lookup "" (mapSet store "" _) = _
    rw [lookup_mapSet]
    rw [if_pos rfl]
    rfl

/-! ## Agent CLI argument assembly (claudeCliService.ts buildClaudeArgs, lines 182-282) -/

/-- The `toolsSettings` of a spawn request. -/
structure ToolsSettings where
  allowedTools : List String
  disallowedTools : List String
  skipPermissions : Bool
deriving DecidableEq

/-- The spawn request options read by `buildClaudeArgs`.  `resume` is `false` when
absent (JS truthiness of an absent boolean). -/
structure ClaudeSpawnOptions where
  sessionId : Option String
  resume : Bool
  toolsSettings : Option ToolsSettings
  permissionMode : Option String
deriving DecidableEq

/-- Parsed shape of the well-known `~/.claude.json` tool config: names of global MCP
servers plus per-project MCP server names keyed by project path. -/
structure McpFileConfig where
  mcpServers : List String
  claudeProjects : List (String × List String)
deriving DecidableEq

/-- Embedding of `checkMcpConfig` (claudeCliService.ts, lines 111-177).  `cfg` is the
parse of `~/.claude.json` (`none` when the file is missing or unparseable),
`processCwd` is `process.cwd()` and `claudeConfigPath` the well-known path.  The
path is returned when the config declares a global MCP server or one scoped to
`processCwd`. -/
def checkMcpConfig (claudeConfigPath : String) (cfg : Option McpFileConfig)
    (processCwd : String) : Option String :=
  match cfg with
  | none => none
  | some c =>
    let hasGlobalServers := c.mcpServers.length > 0
    let hasProjectServers :=
      match List.lookup processCwd c.claudeProjects with
      | some servers => servers.length > 0
      | none => false
    if hasGlobalServers || hasProjectServers then some claudeConfigPath else none

/-- JS truthiness of `s && s.trim()`: some character of `s` is not whitespace
(Lean's `Char.isWhitespace` stands in for the JS trim character class). -/
def jsTrimTruthy (s : String) : Bool := s.data.any (fun c => !c.isWhitespace)

/-- The trailing image-paths block appended to the prompt
(`\n\n[Images provided at the following paths:]\n1. <path>...`). -/
def imageNote (tempImagePaths : List String) : String :=
  "\n\n[Images provided at the following paths:]\n" ++
    String.intercalate "\n"
      (tempImagePaths.enum.map (fun p => toString (p.1 + 1) ++ ". " ++ p.2))

/-- The fixed set of tools merged into the allow list in plan mode. -/
def planModeTools : List String := ["Read", "Task", "exit_plan_mode", "TodoRead", "TodoWrite"]

/-- Embedding of `buildClaudeArgs` (claudeCliService.ts, lines 182-282), with the
file-system inputs of the MCP check passed through. -/
def buildClaudeArgs (command : Option String) (options : ClaudeSpawnOptions)
    (tempImagePaths : List String) (claudeConfigPath : String)
    (cfg : Option McpFileConfig) (processCwd : String) : List String :=
  let settings := options.toolsSettings.getD
    { allowedTools := [], disallowedTools := [], skipPermissions := false }
  let printArgs :=
    match command with
    | some cmd =>
      if jsTrimTruthy cmd then
        let finalCommand :=
          if tempImagePaths.length > 0 then cmd ++ imageNote tempImagePaths else cmd
        ["--print", finalCommand]
      else []
    | none => []
  let resumeArgs :=
    if options.resume && jsTruthy options.sessionId then
      ["--resume", options.sessionId.getD ""]
    else []
  let basicArgs := ["--output-format", "stream-json", "--verbose"]
  let mcpArgs :=
    match checkMcpConfig claudeConfigPath cfg processCwd with
    | some path => ["--mcp-config", path]
    | none => []
  let modelArgs := if options.resume then [] else ["--model", "sonnet"]
  let permArgs :=
    if jsTruthy options.permissionMode && options.permissionMode.getD "" ≠ "default" then
      ["--permission-mode", options.permissionMode.getD ""]
    else []
  let toolArgs :=
    if settings.skipPermissions && options.permissionMode ≠ some "plan" then
      ["--dangerously-skip-permissions"]
    else
      let allowedTools :=
        if options.permissionMode = some "plan" then
          planModeTools.foldl
            (fun acc tool => if acc.contains tool then acc else acc ++ [tool])
            settings.allowedTools
        else settings.allowedTools
      (allowedTools.map (fun tool => ["--allowedTools", tool])).flatten ++
        (settings.disallowedTools.map (fun tool => ["--disallowedTools", tool])).flatten
  printArgs ++ resumeArgs ++ basicArgs ++ mcpArgs ++ modelArgs ++ permArgs ++ toolArgs

/-- Whether the well-known tool config declares at least one MCP server, globally or
scoped to the current working directory (claim C2's wording). -/
def mcpDeclaresServer (cfg : Option McpFileConfig) (processCwd : String) : Bool :=
  match cfg with
  | none => false
  | some c =>
    decide (c.mcpServers ≠ []) || decide ((List.lookup processCwd c.claudeProjects).getD [] ≠ [])

/-- Agent argv exactly as claim C2 words it: written from the spec's words, to be
compared with `buildClaudeArgs`.  "The mode is not default" and "a sessionId is
known" are read with JS truthiness (an empty string is no mode / no session id). -/
def claimedClaudeArgs (command : Option String) (options : ClaudeSpawnOptions)
    (tempImagePaths : List String) (claudeConfigPath : String)
    (cfg : Option McpFileConfig) (processCwd : String) : List String :=
  let settings := options.toolsSettings.getD
    { allowedTools := [], disallowedTools := [], skipPermissions := false }
  (match command with
   | some cmd =>
     if jsTrimTruthy cmd then
       ["--print", if tempImagePaths ≠ [] then cmd ++ imageNote tempImagePaths else cmd]
     else []
   | none => []) ++
  (if options.resume ∧ jsTruthy options.sessionId then
    ["--resume", options.sessionId.getD ""] else []) ++
  ["--output-format", "stream-json", "--verbose"] ++
  (if mcpDeclaresServer cfg processCwd then ["--mcp-config", claudeConfigPath] else []) ++
  (if options.resume = false then ["--model", "sonnet"] else []) ++
  (if jsTruthy options.permissionMode ∧ options.permissionMode.getD "" ≠ "default" then
    ["--permission-mode", options.permissionMode.getD ""] else []) ++
  (if settings.skipPermissions ∧ options.permissionMode ≠ some "plan" then
    ["--dangerously-skip-permissions"]
  else
    (((if options.permissionMode = some "plan" then
        settings.allowedTools ++
          planModeTools.filter (fun t => !settings.allowedTools.contains t)
      else settings.allowedTools).map (fun tool => ["--allowedTools", tool])).flatten ++
      (settings.disallowedTools.map (fun tool => ["--disallowedTools", tool])).flatten))

theorem checkMcpConfig_eq_declares (claudeConfigPath : String) (cfg : Option McpFileConfig)
    (processCwd : String) :
    checkMcpConfig claudeConfigPath cfg processCwd =
      if mcpDeclaresServer cfg processCwd then some claudeConfigPath else none := by
  cases cfg with
  | none => rfl
  | some c =>
    show (if (c.mcpServers.length > 0 : Bool) || _ then _ else _) = _
    have hg : (decide (c.mcpServers.length > 0)) = decide (c.mcpServers ≠ []) := by
      simp [List.length_pos]
    cases hlk : List.lookup processCwd c.claudeProjects with
    | none =>
      simp only [mcpDeclaresServer, checkMcpConfig, hlk]
      simp [List.length_pos]
    | some servers =>
      simp only [mcpDeclaresServer, checkMcpConfig, hlk]
      simp [List.length_pos]

theorem foldl_dedup_eq_filter (l : List String) (hl : l.Nodup) :
    ∀ acc : List String,
      l.foldl (fun acc tool => if tool ∈ acc then acc else acc ++ [tool]) acc =
        acc ++ l.filter (fun t => !decide (t ∈ acc)) := by
  induction l with
  | nil => intro acc; simp
  | cons a rest ih =>
    intro acc
    rw [List.nodup_cons] at hl
    show rest.foldl _ (if a ∈ acc then acc else acc ++ [a]) = _
    by_cases h : a ∈ acc
    · rw [if_pos h, ih hl.2 acc]
      simp [List.filter_cons, h]
    · rw [if_neg h, ih hl.2 (acc ++ [a])]
      have hfilter : rest.filter (fun t => !decide (t ∈ acc ++ [a])) =
          rest.filter (fun t => !decide (t ∈ acc)) := by
        apply List.filter_congr
        intro t ht
        have hta : t ≠ a := fun hEq => hl.1 (hEq ▸ ht)
        simp [List.mem_append, hta]
      rw [hfilter]
      simp [List.filter_cons, h, List.append_assoc]

/-- C2: for every command, options and list of materialized image paths, the
assembled agent argv is exactly the ordered concatenation the claim describes:
a `--print` pair for a non-blank prompt (with the numbered image-paths block when
image paths exist), `--resume <sid>` when resuming with a known session id, the
fixed `--output-format stream-json --verbose`, `--mcp-config` when the well-known
tool config declares at least one server, `--model sonnet` exactly when not
resuming, `--permission-mode` for a non-default mode, then either the single
`--dangerously-skip-permissions` flag (skip requested and mode is not plan) or
the allow flags (with the fixed plan-mode set merged in without duplicates)
followed by the disallow flags. -/
theorem buildClaudeArgs_matches_claim (command : Option String)
    (options : ClaudeSpawnOptions) (tempImagePaths : List String)
    (claudeConfigPath : String) (cfg : Option McpFileConfig) (processCwd : String) :
    buildClaudeArgs command options tempImagePaths claudeConfigPath cfg processCwd =
      claimedClaudeArgs command options tempImagePaths claudeConfigPath cfg processCwd := by
  simp only [buildClaudeArgs, claimedClaudeArgs]
  congr 1
  · congr 1
    · congr 1
      · congr 1
        · congr 1
          · congr 1
            · -- print pair
              cases command with
              | none => rfl
              | some cmd =>
                by_cases hc : jsTrimTruthy cmd = true
                · by_cases himg : tempImagePaths = []
                  · simp [hc, himg]
                  · have hlen : tempImagePaths.length > 0 := List.length_pos.mpr himg
                    simp [hc, himg, hlen]
                · have hc' : jsTrimTruthy cmd = false := by
                    simp only [Bool.not_eq_true] at hc
                    exact hc
                  simp [hc']
            · -- resume pair
              by_cases h1 : options.resume = true
              · by_cases h2 : jsTruthy options.sessionId = true
                · simp [h1, h2]
                · have h2' : jsTruthy options.sessionId = false := by
                    simp only [Bool.not_eq_true] at h2
                    exact h2
                  simp [h1, h2']
              · have h1' : options.resume = false := by
                  simp only [Bool.not_eq_true] at h1
                  exact h1
                simp [h1']
        · -- mcp flag
          rw [checkMcpConfig_eq_declares]
          cases mcpDeclaresServer cfg processCwd <;> rfl
      · -- model flag
        cases hres : options.resume <;> simp [hres]
    · -- permission mode flag
      by_cases h1 : jsTruthy options.permissionMode = true
      · by_cases h2 : options.permissionMode.getD "" = "default"
        · simp [h1, h2]
        · simp [h1, h2]
      · have h1' : jsTruthy options.permissionMode = false := by
          simp only [Bool.not_eq_true] at h1
          exact h1
        simp [h1']
  · -- tool policy flags
    by_cases hsp : (options.toolsSettings.getD
        { allowedTools := [], disallowedTools := [], skipPermissions := false }).skipPermissions = true
    · by_cases hpm : options.permissionMode = some "plan"
      · simp only [hsp, hpm]
        simp
        rw [foldl_dedup_eq_filter planModeTools (by decide)]
        simp [List.map_append, List.flatten_append, List.append_assoc]
      · simp [hsp, hpm]
    · have hsp' : (options.toolsSettings.getD
          { allowedTools := [], disallowedTools := [], skipPermissions := false }).skipPermissions = false := by
        simp only [Bool.not_eq_true] at hsp
        exact hsp
      by_cases hpm : options.permissionMode = some "plan"
      · simp only [hsp', hpm]
        simp
        rw [foldl_dedup_eq_filter planModeTools (by decide)]
        simp [List.map_append, List.flatten_append, List.append_assoc]
      · simp [hsp', hpm]

/-! ## Path sandbox (fileOperations, validateRelativePath / resolveProjectFilePath) -/

/-- Split a character list on a separator character. -/
def splitChar (sep : Char) : List Char → List (List Char)
  | [] => [[]]
  | c :: rest =>
    let r := splitChar sep rest
    if c = sep then [] :: r
    else
      match r with
      | [] => [[c]]
      | h :: t => (c :: h) :: t

/-- Whether `sub` occurs as a contiguous substring (JS `String.includes`). -/
def containsSub (sub : List Char) : List Char → Bool
  | [] => sub.isEmpty
  | c :: rest => sub.isPrefixOf (c :: rest) || containsSub sub rest

/-- The Windows drive-prefix test `/^[a-zA-Z]:/`. -/
def winDrive (s : String) : Bool :=
  match s.data with
  | c1 :: c2 :: _ => c1.isAlpha && c2 = ':'
  | _ => false

/-- Embedding of `validateRelativePath` (fileOperations service): reject a `..`
substring, a leading `/`, a Windows drive prefix, and any character matched by
the regex `[<>:"|?*]`. -/
def validateRelativePath (relativePath : String) : Bool :=
  if containsSub "..".data relativePath.data then false
  else if relativePath.data.head? = some '/' then false
  else if winDrive relativePath then false
  else if relativePath.data.any (fun c => c ∈ ['<', '>', ':', '"', '|', '?', '*']) then false
  else true

/-- One step of POSIX path normalization: drop empty and `.` segments, let `..`
pop the previous segment (or stay at the root). -/
def normStep (acc : List String) (s : String) : List String :=
  if s = "" ∨ s = "." then acc
  else if s = ".." then acc.dropLast
  else acc ++ [s]

/-- POSIX path normalization over segments, as `path.resolve` performs after joining
onto an absolute base. -/
def normalizeSegs (segs : List String) : List String :=
  segs.foldl normStep []

/-- Length of the longest common prefix of two segment lists. -/
def commonPrefixLen : List String → List String → Nat
  | a :: as, b :: bs => if a = b then commonPrefixLen as bs + 1 else 0
  | _, _ => 0

/-- Segments of `path.relative(fromPath, toPath)` for normalized absolute paths:
climb out of the uncommon part of `fromPath`, then descend into `toPath`. -/
def nodeRelativeSegs (fromSegs toSegs : List String) : List String :=
  List.replicate (fromSegs.length - commonPrefixLen fromSegs toSegs) ".." ++
    toSegs.drop (commonPrefixLen fromSegs toSegs)

/-- The containment test of `resolveProjectFilePath`:
`relative(projectDir, finalPath).startsWith('..')` (the `isAbsolute` disjunct of the
source is always false when both inputs are absolute). -/
def nodeRelativeStartsUp (fromSegs toSegs : List String) : Bool :=
  (nodeRelativeSegs fromSegs toSegs).head? = some ".."

/-- Embedding of `resolveProjectFilePath` (fileOperations service, lines 521-565).
The project's real directory is given by its path segments; the result is the
resolved path's segments.  `resolve(join(projectDir, relativePath))` becomes
normalization of the concatenated segments. -/
def resolveProjectFilePath (projectDirSegs : List String) (relativePath : String) :
    Except String (List String) :=
  if relativePath.data.head? = some '/' then
    Except.error "Project files must use relative paths."
  else if validateRelativePath relativePath = false then
    Except.error "Invalid relative path - contains unsafe characters or path traversal"
  else
    let projectDir := normalizeSegs projectDirSegs
    let finalPath :=
      normalizeSegs (projectDirSegs ++ (splitChar '/' relativePath.data).map String.mk)
    if nodeRelativeStartsUp projectDir finalPath then
      Except.error "Invalid relative path - resolves outside project directory"
    else Except.ok finalPath

theorem dotdot_not_mem_foldl_normStep (segs : List String) :
    ∀ acc : List String, ".." ∉ acc → ".." ∉ segs.foldl normStep acc := by
  induction segs with
  | nil => intro acc h; exact h
  | cons s rest ih =>
    intro acc h
    apply ih
    unfold normStep
    by_cases h1 : s = "" ∨ s = "."
    · rw [if_pos h1]; exact h
    · rw [if_neg h1]
      by_cases h2 : s = ".."
      · rw [if_pos h2]
        exact fun hmem => h (List.dropLast_subset acc hmem)
      · rw [if_neg h2]
        intro hmem
        rcases List.mem_append.mp hmem with hmem | hmem
        · exact h hmem
        · rcases List.mem_singleton.mp hmem with rfl
          exact h2 rfl

theorem dotdot_not_mem_normalizeSegs (segs : List String) : ".." ∉ normalizeSegs segs :=
  dotdot_not_mem_foldl_normStep segs [] (by simp)

theorem nodeRelativeStartsUp_eq_false_iff (f : List String) :
    ∀ t : List String, ".." ∉ t → (nodeRelativeStartsUp f t = false ↔ f <+: t) := by
  induction f with
  | nil =>
    intro t ht
    constructor
    · intro _; exact List.nil_prefix
    · intro _
      cases t with
      | nil => rfl
      | cons b t' =>
        have hb : b ≠ ".." := fun hEq => ht (hEq ▸ List.mem_cons_self b t')
        simp [nodeRelativeStartsUp, nodeRelativeSegs, commonPrefixLen, hb]
  | cons a f' ih =>
    intro t ht
    cases t with
    | nil =>
      constructor
      · intro hfalse
        exfalso
        simp [nodeRelativeStartsUp, nodeRelativeSegs, commonPrefixLen,
          List.replicate_succ] at hfalse
      · intro hpre
        exact absurd (List.eq_nil_of_prefix_nil hpre) (by simp)
    | cons b t' =>
      by_cases hab : a = b
      · subst hab
        have ht' : ".." ∉ t' := fun hmem => ht (List.mem_cons_of_mem _ hmem)
        have hcpl : commonPrefixLen (a :: f') (a :: t') = commonPrefixLen f' t' + 1 := by
          simp [commonPrefixLen]
        have hred : nodeRelativeStartsUp (a :: f') (a :: t') = nodeRelativeStartsUp f' t' := by
          simp only [nodeRelativeStartsUp, nodeRelativeSegs, hcpl,
            List.length_cons, Nat.succ_sub_succ, List.drop_succ_cons]
        rw [hred, List.cons_prefix_cons]
        rw [ih t' ht']
        simp
      · constructor
        · intro hfalse
          exfalso
          simp [nodeRelativeStartsUp, nodeRelativeSegs, commonPrefixLen, hab,
            List.replicate_succ] at hfalse
        · intro hpre
          exact absurd (List.cons_prefix_cons.mp hpre).1 hab

theorem foldl_normStep_no_dotdot (segs : List String) :
    ∀ acc : List String, (∀ s ∈ segs, s ≠ "..") →
      segs.foldl normStep acc = acc ++ segs.filter (fun s => !(s == "" || s == ".")) := by
  induction segs with
  | nil => intro acc _; simp
  | cons s rest ih =>
    intro acc h
    have hs : s ≠ ".." := h s (List.mem_cons_self _ _)
    have hrest : ∀ x ∈ rest, x ≠ ".." := fun x hx => h x (List.mem_cons_of_mem _ hx)
    show rest.foldl normStep (normStep acc s) = _
    by_cases h1 : s = "" ∨ s = "."
    · have hstep : normStep acc s = acc := by
        unfold normStep
        rw [if_pos h1]
      rw [hstep, ih acc hrest]
      rcases h1 with h1 | h1 <;> simp [List.filter_cons, h1]
    · have hstep : normStep acc s = acc ++ [s] := by
        unfold normStep
        rw [if_neg h1, if_neg hs]
      rw [hstep, ih (acc ++ [s]) hrest]
      push_neg at h1
      simp [List.filter_cons, h1.1, h1.2, List.append_assoc]

theorem normalizeSegs_append_no_dotdot (base segs : List String)
    (h : ∀ s ∈ segs, s ≠ "..") :
    normalizeSegs (base ++ segs) =
      normalizeSegs base ++ segs.filter (fun s => !(s == "" || s == ".")) := by
  unfold normalizeSegs
  rw [List.foldl_append]
  exact foldl_normStep_no_dotdot segs _ h

/-- C6 counterexample: a NUL byte is not among the characters the validator rejects,
so project-relative path resolution accepts `foo\x00bar` and resolves it inside the
project root, while the claim says a path containing a NUL byte is rejected (the
only failure for such a path occurs later, in the filesystem layer). -/
theorem resolveProjectFilePath_accepts_nul :
    resolveProjectFilePath ["home", "user", "project"] "foo\x00bar" =
      Except.ok ["home", "user", "project", "foo\x00bar"] := by
  rfl

/-- C6 (amended): project-relative path resolution rejects absolute paths, paths
containing `..`, paths with a platform drive prefix and paths containing any of
the characters in the regex class, and every accepted path resolves to a location
inside the project's (normalized) real directory; in particular `../etc/passwd`,
`/etc/passwd` and `C:\Windows` are rejected for every project, while `etc/passwd`
is accepted and resolves inside the project root.  A NUL byte is not rejected. -/
theorem resolveProjectFilePath_sandbox :
    (∀ (projectDirSegs : List String) (rel : String),
        rel.data.head? = some '/' →
        resolveProjectFilePath projectDirSegs rel =
          Except.error "Project files must use relative paths.") ∧
    (∀ (projectDirSegs : List String) (rel : String),
        (containsSub "..".data rel.data = true ∨ winDrive rel = true ∨
          rel.data.any (fun c => c ∈ ['<', '>', ':', '"', '|', '?', '*']) = true) →
        ∃ e, resolveProjectFilePath projectDirSegs rel = Except.error e) ∧
    (∀ (projectDirSegs : List String) (rel : String) (out : List String),
        resolveProjectFilePath projectDirSegs rel = Except.ok out →
        normalizeSegs projectDirSegs <+: out) ∧
    (∀ projectDirSegs : List String, ∃ e₁ e₂ e₃,
        resolveProjectFilePath projectDirSegs "../etc/passwd" = Except.error e₁ ∧
        resolveProjectFilePath projectDirSegs "/etc/passwd" = Except.error e₂ ∧
        resolveProjectFilePath projectDirSegs "C:\\Windows" = Except.error e₃) ∧
    (∀ projectDirSegs : List String,
        resolveProjectFilePath projectDirSegs "etc/passwd" =
          Except.ok (normalizeSegs projectDirSegs ++ ["etc", "passwd"])) := by
  have part1 : ∀ (projectDirSegs : List String) (rel : String),
      rel.data.head? = some '/' →
      resolveProjectFilePath projectDirSegs rel =
        Except.error "Project files must use relative paths." := by
    intro p rel habs
    unfold resolveProjectFilePath
    rw [if_pos habs]
  have part2 : ∀ (projectDirSegs : List String) (rel : String),
      (containsSub "..".data rel.data = true ∨ winDrive rel = true ∨
        rel.data.any (fun c => c ∈ ['<', '>', ':', '"', '|', '?', '*']) = true) →
      ∃ e, resolveProjectFilePath projectDirSegs rel = Except.error e := by
    intro p rel h
    by_cases habs : rel.data.head? = some '/'
    · exact ⟨_, part1 p rel habs⟩
    · have hval : validateRelativePath rel = false := by
        unfold validateRelativePath
        rcases h with h | h | h
        · rw [if_pos h]
        · by_cases h1 : containsSub "..".data rel.data = true
          · rw [if_pos h1]
          · rw [if_neg h1, if_neg habs, if_pos h]
        · by_cases h1 : containsSub "..".data rel.data = true
          · rw [if_pos h1]
          · by_cases h2 : winDrive rel = true
            · rw [if_neg h1, if_neg habs, if_pos h2]
            · rw [if_neg h1, if_neg habs, if_neg h2, if_pos h]
      refine ⟨"Invalid relative path - contains unsafe characters or path traversal", ?_⟩
      unfold resolveProjectFilePath
      rw [if_neg habs, if_pos hval]
  have part3 : ∀ (projectDirSegs : List String) (rel : String) (out : List String),
      resolveProjectFilePath projectDirSegs rel = Except.ok out →
      normalizeSegs projectDirSegs <+: out := by
    intro p rel out hok
    unfold resolveProjectFilePath at hok
    by_cases habs : rel.data.head? = some '/'
    · rw [if_pos habs] at hok
      exact absurd hok (by simp)
    · rw [if_neg habs] at hok
      by_cases hval : validateRelativePath rel = false
      · rw [if_pos hval] at hok
        exact absurd hok (by simp)
      · rw [if_neg hval] at hok
        by_cases hstart : nodeRelativeStartsUp (normalizeSegs p)
            (normalizeSegs (p ++ (splitChar '/' rel.data).map String.mk)) = true
        · rw [if_pos hstart] at hok
          exact absurd hok (by simp)
        · rw [if_neg hstart] at hok
          have hout : normalizeSegs (p ++ (splitChar '/' rel.data).map String.mk) = out := by
            exact Except.ok.inj hok
          have hstart' : nodeRelativeStartsUp (normalizeSegs p)
              (normalizeSegs (p ++ (splitChar '/' rel.data).map String.mk)) = false := by
            simp only [Bool.not_eq_true] at hstart
            exact hstart
          rw [hout] at hstart'
          have hnd : ".." ∉ out := by
            rw [← hout]
            exact dotdot_not_mem_normalizeSegs _
          exact (nodeRelativeStartsUp_eq_false_iff (normalizeSegs p) out hnd).mp hstart'
  have part5 : ∀ projectDirSegs : List String,
      resolveProjectFilePath projectDirSegs "etc/passwd" =
        Except.ok (normalizeSegs projectDirSegs ++ ["etc", "passwd"]) := by
    intro p
    have hfinal : normalizeSegs (p ++ (splitChar '/' "etc/passwd".data).map String.mk) =
        normalizeSegs p ++ ["etc", "passwd"] := by
      rw [normalizeSegs_append_no_dotdot p _ (by decide)]
      rfl
    have hnd : ".." ∉ normalizeSegs p ++ ["etc", "passwd"] := by
      intro hmem
      rcases List.mem_append.mp hmem with hmem | hmem
      · exact dotdot_not_mem_normalizeSegs p hmem
      · simp at hmem
    have hstart : nodeRelativeStartsUp (normalizeSegs p)
        (normalizeSegs (p ++ (splitChar '/' "etc/passwd".data).map String.mk)) = false := by
      rw [hfinal]
      exact (nodeRelativeStartsUp_eq_false_iff _ _ hnd).mpr (List.prefix_append _ _)
    unfold resolveProjectFilePath
    rw [if_neg (by decide), if_neg (by decide)]
    rw [if_neg (by rw [hstart]; exact Bool.false_ne_true), hfinal]
  refine ⟨part1, part2, part3, ?_, part5⟩
  intro p
  obtain ⟨e₁, he₁⟩ := part2 p "../etc/passwd" (Or.inl (by decide))
  obtain ⟨e₃, he₃⟩ := part2 p "C:\\Windows" (Or.inr (Or.inl (by decide)))
  exact ⟨e₁, _, e₃, he₁, part1 p "/etc/passwd" (by decide), he₃⟩

/-- C6 witness: the sandbox theorem applied at concrete inputs, discharging each
hypothesis: an absolute path is rejected, a traversal path is rejected, and an
accepted resolution stays inside the concrete project directory. -/
theorem resolveProjectFilePath_sandbox_witness :
    resolveProjectFilePath ["home", "p"] "/etc/passwd" =
      Except.error "Project files must use relative paths." ∧
    (∃ e, resolveProjectFilePath ["home", "p"] "../etc/passwd" = Except.error e) ∧
    normalizeSegs ["home", "p"] <+: ["home", "p", "etc", "passwd"] := by
  refine ⟨resolveProjectFilePath_sandbox.1 ["home", "p"] "/etc/passwd" (by decide),
    resolveProjectFilePath_sandbox.2.1 ["home", "p"] "../etc/passwd" (Or.inl (by decide)),
    resolveProjectFilePath_sandbox.2.2.1 ["home", "p"] "etc/passwd" ["home", "p", "etc", "passwd"]
      (by rfl)⟩

/-! ## Project discovery (projectDiscovery service, extractProjectDirectory) -/

/-- Abstract result of `JSON.parse` on one log line: exactly the fields the embedded
functions read.  `typ` is the top-level `type` field, `summary` the top-level
`summary` string, `role`/`content` come from the nested `message` (with `content`
present only when it is a string), `timestamp` is the parsed date in milliseconds
(`none` when the field is absent), and `cwd` the top-level `cwd`. -/
structure LogEntry where
  sessionId : Option String
  typ : Option String
  summary : Option String
  role : Option String
  content : Option String
  timestamp : Option Nat
  cwd : Option String
deriving DecidableEq

/-- State of the cwd scan in `extractProjectDirectory`. -/
structure CwdScanState where
  cwdCounts : List (String × Nat)
  latestTimestamp : Nat
  latestCwd : Option String
deriving DecidableEq

/-- One line of the cwd scan (projectDiscovery, lines 102-119): count truthy `cwd`
values and remember the cwd of the line with the strictly greatest
`new Date(entry.timestamp || 0).getTime()`. -/
def cwdScanLine (parse : String → Option LogEntry) (st : CwdScanState) (line : String) :
    CwdScanState :=
  if jsTrimTruthy line then
    match parse line with
    | none => st
    | some entry =>
      if jsTruthy entry.cwd then
        let c := entry.cwd.getD ""
        let counts := mapSet st.cwdCounts c ((List.lookup c st.cwdCounts).getD 0 + 1)
        let ts := entry.timestamp.getD 0
        if ts > st.latestTimestamp then
          { cwdCounts := counts, latestTimestamp := ts, latestCwd := some c }
        else
          { st with cwdCounts := counts }
      else st
  else st

/-- The full cwd scan over every `.jsonl` file's lines. -/
def cwdScan (parse : String → Option LogEntry) (files : List (List String)) : CwdScanState :=
  files.foldl (fun acc lines => lines.foldl (cwdScanLine parse) acc)
    { cwdCounts := [], latestTimestamp := 0, latestCwd := none }

/-- Decode an alias: `projectName.replace` of every dash with a slash. -/
def decodeProjectName (projectName : String) : String :=
  String.mk (projectName.data.map (fun c => if c = '-' then '/' else c))

/-- Head of `entries.sort((a,b) => b[1]-a[1])`: a stable descending sort by count,
whose head is the first-inserted entry with maximal count; modelled as a fold that
replaces the current best only on a strictly greater count. -/
def mostFrequentEntry : List (String × Nat) → Option (String × Nat)
  | [] => none
  | e :: rest => some (rest.foldl (fun best p => if p.2 > best.2 then p else best) e)

/-- Embedding of `extractProjectDirectory` (projectDiscovery service, lines 71-162),
without the process-lifetime cache.  `files` holds each `.jsonl` file's lines (an
absent or unreadable directory is the `files = []` case).  The float comparison
`latestCount >= mostFrequentCount * 0.3` is modelled exactly over the rationals as
`10 * latestCount ≥ 3 * mostFrequentCount`. -/
def extractProjectDirectory (projectName : String) (files : List (List String))
    (parse : String → Option LogEntry) : String :=
  if files.isEmpty then decodeProjectName projectName
  else
    let st := cwdScan parse files
    if st.cwdCounts.isEmpty then decodeProjectName projectName
    else if st.cwdCounts.length = 1 then
      match st.cwdCounts.head? with
      | some e => if e.1 = "" then decodeProjectName projectName else e.1
      | none => decodeProjectName projectName
    else
      match mostFrequentEntry st.cwdCounts with
      | none => decodeProjectName projectName
      | some mf =>
        if mf.1 = "" then decodeProjectName projectName
        else
          let latestCount := match st.latestCwd with
            | some lc => (List.lookup lc st.cwdCounts).getD 0
            | none => 0
          let mostFrequentCount := (List.lookup mf.1 st.cwdCounts).getD 0
          if jsTruthy st.latestCwd ∧ 10 * latestCount ≥ 3 * mostFrequentCount then
            st.latestCwd.getD ""
          else mf.1

theorem mem_mapSet {α : Type} (m : List (String × α)) (k : String) (v : α) :
    ∀ p ∈ mapSet m k v, p = (k, v) ∨ p ∈ m := by
  intro p hp
  unfold mapSet at hp
  by_cases hany : m.any (fun q => q.1 = k) = true
  · rw [if_pos hany] at hp
    rcases List.mem_map.mp hp with ⟨q, hq, hfq⟩
    by_cases hqk : q.1 = k
    · left
      rw [← hfq, if_pos hqk]
    · right
      rw [← hfq, if_neg hqk]
      exact hq
  · rw [if_neg hany] at hp
    rcases List.mem_append.mp hp with hp | hp
    · right; exact hp
    · left; exact List.mem_singleton.mp hp

theorem foldl_preserves {α β : Type} (P : α → Prop) (f : α → β → α)
    (hstep : ∀ a b, P a → P (f a b)) : ∀ (l : List β) (a : α), P a → P (l.foldl f a) := by
  intro l
  induction l with
  | nil => intro a h; exact h
  | cons b rest ih => intro a h; exact ih (f a b) (hstep a b h)

/-- Invariant of the cwd scan: every counted cwd and the latest cwd are non-empty
(they were inserted under a JS truthiness guard). -/
def cwdStateOk (st : CwdScanState) : Prop :=
  (∀ p ∈ st.cwdCounts, p.1 ≠ "") ∧ (∀ lc, st.latestCwd = some lc → lc ≠ "")

theorem cwdScanLine_ok (parse : String → Option LogEntry) (st : CwdScanState)
    (line : String) (h : cwdStateOk st) : cwdStateOk (cwdScanLine parse st line) := by
  unfold cwdScanLine
  by_cases h1 : jsTrimTruthy line = true
  · rw [if_pos h1]
    cases hparse : parse line with
    | none => exact h
    | some entry =>
      dsimp only
      by_cases h2 : jsTruthy entry.cwd = true
      · rw [if_pos h2]
        cases hcwd : entry.cwd with
        | none => rw [hcwd] at h2; exact absurd h2 (by simp [jsTruthy])
        | some c =>
          have hc : c ≠ "" := by
            rw [hcwd] at h2
            simpa [jsTruthy] using h2
          simp only [Option.getD_some]
          have hcounts : ∀ p ∈ mapSet st.cwdCounts c
              ((List.lookup c st.cwdCounts).getD 0 + 1), p.1 ≠ "" := by
            intro p hp
            rcases mem_mapSet _ _ _ p hp with hp | hp
            · rw [hp]; exact hc
            · exact h.1 p hp
          by_cases h3 : entry.timestamp.getD 0 > st.latestTimestamp
          · rw [if_pos h3]
            refine ⟨hcounts, ?_⟩
            intro lc hlc
            injection hlc with hlc
            rw [← hlc]
            exact hc
          · rw [if_neg h3]
            exact ⟨hcounts, h.2⟩
      · rw [if_neg h2]; exact h
  · rw [if_neg h1]; exact h

theorem cwdScan_ok (parse : String → Option LogEntry) (files : List (List String)) :
    cwdStateOk (cwdScan parse files) := by
  unfold cwdScan
  refine foldl_preserves cwdStateOk _ ?_ files _ ?_
  · intro st lines hst
    exact foldl_preserves cwdStateOk _ (fun a b hab => cwdScanLine_ok parse a b hab) lines st hst
  · exact ⟨by simp, by simp⟩

theorem foldl_max_spec (rest : List (String × Nat)) :
    ∀ e : String × Nat,
      (rest.foldl (fun best p => if p.2 > best.2 then p else best) e) ∈ e :: rest ∧
      e.2 ≤ (rest.foldl (fun best p => if p.2 > best.2 then p else best) e).2 ∧
      ∀ p ∈ rest, p.2 ≤ (rest.foldl (fun best p => if p.2 > best.2 then p else best) e).2 := by
  induction rest with
  | nil => intro e; exact ⟨List.mem_singleton.mpr rfl, le_refl _, by simp⟩
  | cons q rest' ih =>
    intro e
    show (rest'.foldl _ (if q.2 > e.2 then q else e)) ∈ _ ∧ _ ∧ _
    obtain ⟨hmem, hle, hall⟩ := ih (if q.2 > e.2 then q else e)
    have he : e.2 ≤ (if q.2 > e.2 then q else e).2 := by
      by_cases hq : q.2 > e.2
      · rw [if_pos hq]; exact le_of_lt hq
      · rw [if_neg hq]
    have hq2 : q.2 ≤ (if q.2 > e.2 then q else e).2 := by
      by_cases hq : q.2 > e.2
      · rw [if_pos hq]
      · rw [if_neg hq]; exact le_of_not_lt hq
    refine ⟨?_, le_trans he hle, ?_⟩
    · rcases List.mem_cons.mp hmem with hmem | hmem
      · by_cases hq : q.2 > e.2
        · rw [if_pos hq] at hmem ⊢
          rw [hmem]
          exact List.mem_cons_of_mem e (List.mem_cons_self q rest')
        · rw [if_neg hq] at hmem ⊢
          rw [hmem]
          exact List.mem_cons_self e _
      · exact List.mem_cons_of_mem _ (List.mem_cons_of_mem _ hmem)
    · intro p hp
      rcases List.mem_cons.mp hp with hp | hp
      · rw [hp]
        exact le_trans hq2 hle
      · exact hall p hp

theorem mostFrequentEntry_spec (l : List (String × Nat)) (mf : String × Nat)
    (h : mostFrequentEntry l = some mf) : mf ∈ l ∧ ∀ p ∈ l, p.2 ≤ mf.2 := by
  cases l with
  | nil => exact absurd h (by simp [mostFrequentEntry])
  | cons e rest =>
    have hmf : rest.foldl (fun best p => if p.2 > best.2 then p else best) e = mf := by
      simpa [mostFrequentEntry] using h
    obtain ⟨hmem, hle, hall⟩ := foldl_max_spec rest e
    rw [hmf] at hmem hle hall
    refine ⟨hmem, ?_⟩
    intro p hp
    rcases List.mem_cons.mp hp with hp | hp
    · exact hp ▸ hle
    · exact hall p hp

/-- Parse oracle for the selection-rule scenarios: line `a` carries cwd `A` without a
timestamp, line `b` carries cwd `B` with timestamp 5 ms. -/
def cwdExampleParse : String → Option LogEntry := fun s =>
  if s = "a" then
    some { sessionId := none, typ := none, summary := none, role := none,
           content := none, timestamp := none, cwd := some "A" }
  else if s = "b" then
    some { sessionId := none, typ := none, summary := none, role := none,
           content := none, timestamp := some 5, cwd := some "B" }
  else none

/-- A log with cwd counts A:10, B:3 where B is the most recent. -/
def cwdExampleA10B3 : List String := List.replicate 10 "a" ++ List.replicate 3 "b"

/-- A log with cwd counts A:10, B:2 where B is the most recent. -/
def cwdExampleA10B2 : List String := List.replicate 10 "a" ++ List.replicate 2 "b"

/-- C4: the resolved real path of an alias follows the selection rule: with exactly
one distinct cwd, that cwd; with several, the latest-seen cwd when its count is at
least 30 percent of the most frequent's count, else the most frequent cwd (which
indeed has maximal count); with no cwd at all or no log files, the alias decoded by
replacing every dash with a slash.  In particular counts {A:10, B:3} with B latest
give B, and {A:10, B:2} with B latest give A. -/
theorem extractProjectDirectory_selection :
    (∀ (projectName : String) (files : List (List String))
        (parse : String → Option LogEntry),
        (files = [] ∨ (cwdScan parse files).cwdCounts = []) →
        extractProjectDirectory projectName files parse = decodeProjectName projectName) ∧
    (∀ (projectName : String) (files : List (List String))
        (parse : String → Option LogEntry) (c : String) (n : Nat),
        (cwdScan parse files).cwdCounts = [(c, n)] → files ≠ [] →
        extractProjectDirectory projectName files parse = c) ∧
    (∀ (projectName : String) (files : List (List String))
        (parse : String → Option LogEntry) (mf : String × Nat) (lc : String),
        files ≠ [] →
        2 ≤ (cwdScan parse files).cwdCounts.length →
        mostFrequentEntry (cwdScan parse files).cwdCounts = some mf →
        (cwdScan parse files).latestCwd = some lc →
        (∀ p ∈ (cwdScan parse files).cwdCounts, p.2 ≤ mf.2) ∧
        (10 * (List.lookup lc (cwdScan parse files).cwdCounts).getD 0 ≥
            3 * (List.lookup mf.1 (cwdScan parse files).cwdCounts).getD 0 →
          extractProjectDirectory projectName files parse = lc) ∧
        (¬ (10 * (List.lookup lc (cwdScan parse files).cwdCounts).getD 0 ≥
            3 * (List.lookup mf.1 (cwdScan parse files).cwdCounts).getD 0) →
          extractProjectDirectory projectName files parse = mf.1)) ∧
    (extractProjectDirectory "alias" [cwdExampleA10B3] cwdExampleParse = "B" ∧
     extractProjectDirectory "alias" [cwdExampleA10B2] cwdExampleParse = "A" ∧
     extractProjectDirectory "no-sessions" [] cwdExampleParse = "no/sessions") := by
  have part1 : ∀ (projectName : String) (files : List (List String))
      (parse : String → Option LogEntry),
      (files = [] ∨ (cwdScan parse files).cwdCounts = []) →
      extractProjectDirectory projectName files parse = decodeProjectName projectName := by
    intro projectName files parse h
    unfold extractProjectDirectory
    rcases h with h | h
    · rw [if_pos (by simp [h])]
    · by_cases hf : files.isEmpty = true
      · rw [if_pos hf]
      · rw [if_neg hf]
        simp only [h]
        rfl
  have part2 : ∀ (projectName : String) (files : List (List String))
      (parse : String → Option LogEntry) (c : String) (n : Nat),
      (cwdScan parse files).cwdCounts = [(c, n)] → files ≠ [] →
      extractProjectDirectory projectName files parse = c := by
    intro projectName files parse c n hcounts hfiles
    have hc : c ≠ "" := by
      have := (cwdScan_ok parse files).1 (c, n) (by rw [hcounts]; exact List.mem_singleton.mpr rfl)
      exact this
    unfold extractProjectDirectory
    rw [if_neg (by simp [hfiles])]
    simp only [hcounts]
    simp [hc]
  have part3 : ∀ (projectName : String) (files : List (List String))
      (parse : String → Option LogEntry) (mf : String × Nat) (lc : String),
      files ≠ [] →
      2 ≤ (cwdScan parse files).cwdCounts.length →
      mostFrequentEntry (cwdScan parse files).cwdCounts = some mf →
      (cwdScan parse files).latestCwd = some lc →
      (∀ p ∈ (cwdScan parse files).cwdCounts, p.2 ≤ mf.2) ∧
      (10 * (List.lookup lc (cwdScan parse files).cwdCounts).getD 0 ≥
          3 * (List.lookup mf.1 (cwdScan parse files).cwdCounts).getD 0 →
        extractProjectDirectory projectName files parse = lc) ∧
      (¬ (10 * (List.lookup lc (cwdScan parse files).cwdCounts).getD 0 ≥
          3 * (List.lookup mf.1 (cwdScan parse files).cwdCounts).getD 0) →
        extractProjectDirectory projectName files parse = mf.1) := by
    intro projectName files parse mf lc hfiles hlen hmf hlatest
    obtain ⟨hmem, hmax⟩ := mostFrequentEntry_spec _ mf hmf
    have hmf1 : mf.1 ≠ "" := (cwdScan_ok parse files).1 mf hmem
    have hlc : lc ≠ "" := (cwdScan_ok parse files).2 lc hlatest
    have hne : (cwdScan parse files).cwdCounts.isEmpty = false := by
      cases hcc : (cwdScan parse files).cwdCounts with
      | nil => rw [hcc] at hlen; simp at hlen
      | cons x xs => rfl
    have hlen1 : ((cwdScan parse files).cwdCounts.length = 1) = False := by
      simp only [eq_iff_iff, iff_false]
      intro h1
      rw [h1] at hlen
      exact absurd hlen (by simp)
    refine ⟨hmax, ?_, ?_⟩
    · intro hge
      unfold extractProjectDirectory
      rw [if_neg (by simp [hfiles])]
      simp only [hne, Bool.false_eq_true, if_false, hlen1, hmf, hlatest]
      rw [if_neg (by simp [hmf1])]
      rw [if_pos ⟨by simp [jsTruthy, hlc], hge⟩]
      rfl
    · intro hlt
      unfold extractProjectDirectory
      rw [if_neg (by simp [hfiles])]
      simp only [hne, Bool.false_eq_true, if_false, hlen1, hmf, hlatest]
      rw [if_neg (by simp [hmf1])]
      rw [if_neg (by
        intro hcond
        exact hlt hcond.2)]
  refine ⟨part1, part2, part3, ?_, ?_, ?_⟩
  · rfl
  · rfl
  · rfl

/-- C4 witness: the selection theorem applied at concrete directories, discharging
every hypothesis: a single-cwd log resolves to that cwd, and the {A:10, B:3}
directory with B latest resolves to B via the 30 percent rule. -/
theorem extractProjectDirectory_selection_witness :
    extractProjectDirectory "x" [["a"]] cwdExampleParse = "A" ∧
    extractProjectDirectory "alias2" [cwdExampleA10B3] cwdExampleParse = "B" := by
  constructor
  · exact extractProjectDirectory_selection.2.1 "x" [["a"]] cwdExampleParse "A" 1
      (by decide) (by simp)
  · exact (extractProjectDirectory_selection.2.2.1 "alias2" [cwdExampleA10B3]
      cwdExampleParse ("A", 10) "B" (by simp) (by decide) (by decide) (by decide)).2.1
      (by decide)

/-! ## Session log reader (sessionManagerNew.ts) -/

/-- Stable insertion into a sorted list: the new element, which originally precedes
the whole suffix, goes before every element it compares less-or-equal to. -/
def insSorted {α : Type} (le : α → α → Bool) (a : α) : List α → List α
  | [] => [a]
  | b :: l => if le a b then a :: b :: l else b :: insSorted le a l

/-- Stable insertion sort.  A JS `Array.prototype.sort` with a consistent comparator
is specified to be sorted and stable, which determines its output uniquely, so this
models it faithfully (and, unlike well-founded `mergeSort`, computes in the
kernel). -/
def sortStable {α : Type} (le : α → α → Bool) (l : List α) : List α :=
  l.foldr (insSorted le) []

/-- A session summary (`ClaudeSession` in sessionManagerNew.ts), with `lastActivity`
modelled in milliseconds. -/
structure ClaudeSession where
  id : String
  summary : String
  lastActivity : Nat
  messageCount : Nat
  cwd : String
deriving DecidableEq

/-- The fresh session created on first sight of a session id
(sessionManagerNew.ts, lines 44-51). -/
def freshSession (sid : String) (now : Nat) (entry : LogEntry) : ClaudeSession :=
  { id := sid, summary := "New Session", lastActivity := now,
    messageCount := 0, cwd := entry.cwd.getD "" }

/-- The in-place updates applied to a session for one of its lines
(sessionManagerNew.ts, lines 54-78): update the summary (a `summary` entry wins;
else the first user message, truncated at 50 characters, skipping
`<command-name>` lines), count `role∈{user,assistant}` messages, and take every
present timestamp as the new `lastActivity`. -/
def updateSession (entry : LogEntry) (session : ClaudeSession) : ClaudeSession :=
  let session₁ :=
    if entry.typ = some "summary" ∧ jsTruthy entry.summary then
      { session with summary := entry.summary.getD "" }
    else if entry.role = some "user" ∧ jsTruthy entry.content ∧
        session.summary = "New Session" then
      let content := entry.content.getD ""
      if "<command-name>".data.isPrefixOf content.data then session
      else
        { session with summary :=
            if content.length > 50 then String.mk (content.data.take 50) ++ "..."
            else content }
    else session
  let session₂ :=
    if entry.role = some "user" ∨ entry.role = some "assistant" then
      { session₁ with messageCount := session₁.messageCount + 1 }
    else session₁
  if entry.timestamp.isSome then
    { session₂ with lastActivity := entry.timestamp.getD 0 }
  else session₂

/-- One line of `parseJsonlSessions` (sessionManagerNew.ts, lines 37-84): create the
session on first sight, then apply the per-line updates.  `now` models
`new Date().toISOString()` at read time. -/
def sessionStep (parse : String → Option LogEntry) (now : Nat)
    (sessions : List (String × ClaudeSession)) (line : String) :
    List (String × ClaudeSession) :=
  if jsTrimTruthy line then
    match parse line with
    | none => sessions
    | some entry =>
      if jsTruthy entry.sessionId then
        let sid := entry.sessionId.getD ""
        let sessions₁ :=
          if (List.lookup sid sessions).isSome then sessions
          else mapSet sessions sid (freshSession sid now entry)
        match List.lookup sid sessions₁ with
        | none => sessions₁
        | some session => mapSet sessions₁ sid (updateSession entry session)
      else sessions
  else sessions

/-- Embedding of `parseJsonlSessions` (sessionManagerNew.ts, lines 25-93): fold the
lines, then return the sessions sorted by descending `lastActivity` (JS stable
sort). -/
def parseJsonlSessions (parse : String → Option LogEntry) (now : Nat)
    (lines : List String) : List ClaudeSession :=
  sortStable (fun a b => b.lastActivity ≤ a.lastActivity)
    ((lines.foldl (sessionStep parse now) []).map Prod.snd)

/-- Whether a file name ends in `.jsonl`. -/
def endsWithJsonl (name : String) : Bool :=
  ".jsonl".data.isSuffixOf name.data

/-- Result shape of `getClaudeSessions`. -/
structure SessionsResult where
  sessions : List ClaudeSession
  hasMore : Bool
  total : Nat
  offset : Nat
  limit : Nat
deriving DecidableEq

/-- The merge step of `getClaudeSessions`: `if (!allSessions.has(session.id))
allSessions.set(session.id, session)`. -/
def mergeStep (acc : List (String × ClaudeSession)) (s : ClaudeSession) :
    List (String × ClaudeSession) :=
  if (List.lookup s.id acc).isSome then acc else mapSet acc s.id s

/-- Embedding of `getClaudeSessions` (sessionManagerNew.ts, lines 98-164): filter the
directory to `.jsonl` files, sort them by mtime descending (stable), parse each
file, merge per-session summaries first-writer-wins, sort by descending
`lastActivity` and paginate.  A file is `(name, mtime, lines)`. -/
def getClaudeSessions (parse : String → Option LogEntry) (now : Nat)
    (files : List (String × Nat × List String)) (limit offset : Nat) : SessionsResult :=
  let jsonlFiles := files.filter (fun f => endsWithJsonl f.1)
  if jsonlFiles.isEmpty then
    { sessions := [], hasMore := false, total := 0, offset := offset, limit := limit }
  else
    let filesSorted := sortStable (fun a b => b.2.1 ≤ a.2.1) jsonlFiles
    let allSessions := filesSorted.foldl
      (fun acc f => (parseJsonlSessions parse now f.2.2).foldl mergeStep acc) []
    let sortedSessions := sortStable (fun a b => b.lastActivity ≤ a.lastActivity)
      (allSessions.map Prod.snd)
    let total := sortedSessions.length
    let paginated := (sortedSessions.drop offset).take limit
    { sessions := paginated, hasMore := decide (offset + limit < total),
      total := total, offset := offset, limit := limit }

/-- Whether a line is a non-blank, parseable line carrying the given session id. -/
def sidLineOf (parse : String → Option LogEntry) (sid : String) (line : String) : Bool :=
  jsTrimTruthy line &&
    (match parse line with
     | some e => e.sessionId = some sid
     | none => false)

/-- Whether any line of the file carries the given session id. -/
def hasSidLine (parse : String → Option LogEntry) (sid : String) (lines : List String) : Bool :=
  lines.any (sidLineOf parse sid)

/-- Number of lines of the file that carry the session id with
`message.role ∈ {user, assistant}`. -/
def qualifyingCount (parse : String → Option LogEntry) (sid : String)
    (lines : List String) : Nat :=
  lines.countP (fun l =>
    sidLineOf parse sid l &&
      (match parse l with
       | some e => e.role = some "user" || e.role = some "assistant"
       | none => false))

/-- Timestamp of the last timestamped line of the file carrying the session id. -/
def lastTimestampOf (parse : String → Option LogEntry) (sid : String) :
    List String → Option Nat
  | [] => none
  | l :: rest =>
    match lastTimestampOf parse sid rest with
    | some t => some t
    | none => if sidLineOf parse sid l then (parse l).bind (fun e => e.timestamp) else none

/-- Parse oracle for the merge scenario: two lines, both carrying session `s` and a
user message; `u1` at 100 ms, `u2` at 200 ms. -/
def mergeExampleParse : String → Option LogEntry := fun s =>
  if s = "u1" then
    some { sessionId := some "s", typ := none, summary := none, role := some "user",
           content := some "hello", timestamp := some 100, cwd := some "/p" }
  else if s = "u2" then
    some { sessionId := some "s", typ := none, summary := none, role := some "user",
           content := some "again", timestamp := some 200, cwd := some "/p" }
  else none

/-- C3 counterexample: two `.jsonl` files both carry session `s` (one qualifying
user message each, timestamps 100 and 200); the merge is first-writer-wins on the
newest-mtime file, so the single summary has `messageCount = 1` (not the union
count 2) and `lastActivity = 100` (not the maximum 200), contradicting the claim. -/
theorem getClaudeSessions_not_union_merge :
    (getClaudeSessions mergeExampleParse 999
        [("f1.jsonl", 2, ["u1"]), ("f2.jsonl", 1, ["u2"])] 5 0).sessions =
      [{ id := "s", summary := "hello", lastActivity := 100, messageCount := 1,
         cwd := "/p" }] ∧
    hasSidLine mergeExampleParse "s" ["u1"] = true ∧
    hasSidLine mergeExampleParse "s" ["u2"] = true ∧
    qualifyingCount mergeExampleParse "s" ["u1"] +
      qualifyingCount mergeExampleParse "s" ["u2"] = 2 := by
  refine ⟨rfl, rfl, rfl, rfl⟩

theorem insSorted_perm {α : Type} (le : α → α → Bool) (a : α) (l : List α) :
    (insSorted le a l).Perm (a :: l) := by
  induction l with
  | nil => exact List.Perm.refl _
  | cons b rest ih =>
    show (if le a b then a :: b :: rest else b :: insSorted le a rest).Perm _
    by_cases h : le a b = true
    · rw [if_pos h]
    · rw [if_neg h]
      exact (List.Perm.cons b ih).trans (List.Perm.swap a b rest)

theorem sortStable_perm {α : Type} (le : α → α → Bool) (l : List α) :
    (sortStable le l).Perm l := by
  induction l with
  | nil => exact List.Perm.refl _
  | cons a rest ih =>
    show (insSorted le a (sortStable le rest)).Perm _
    exact (insSorted_perm le a _).trans (List.Perm.cons a ih)

theorem sortStable_pair {α : Type} (le : α → α → Bool) (a b : α) (h : le a b = true) :
    sortStable le [a, b] = [a, b] := by
  show insSorted le a (insSorted le b []) = _
  show insSorted le a [b] = _
  show (if le a b then a :: [b] else b :: insSorted le a []) = _
  rw [if_pos h]

theorem sidLineOf_spec (parse : String → Option LogEntry) (sid : String) (l : String)
    (hl : sidLineOf parse sid l = true) :
    jsTrimTruthy l = true ∧ ∃ e, parse l = some e ∧ e.sessionId = some sid := by
  unfold sidLineOf at hl
  simp only [Bool.and_eq_true] at hl
  obtain ⟨h1, h2⟩ := hl
  refine ⟨h1, ?_⟩
  cases hparse : parse l with
  | none => rw [hparse] at h2; exact absurd h2 (by simp)
  | some e =>
    rw [hparse] at h2
    exact ⟨e, rfl, by simpa using h2⟩

theorem lookup_sessionStep_other (parse : String → Option LogEntry) (now : Nat)
    (sid : String) (sessions : List (String × ClaudeSession)) (l : String)
    (hsid : sid ≠ "") (hl : sidLineOf parse sid l = false) :
    List.lookup sid (sessionStep parse now sessions l) = List.lookup sid sessions := by
  unfold sessionStep
  by_cases htrim : jsTrimTruthy l = true
  · rw [if_pos htrim]
    cases hparse : parse l with
    | none => rfl
    | some e =>
      dsimp only
      by_cases hjs : jsTruthy e.sessionId = true
      · rw [if_pos hjs]
        cases hesid : e.sessionId with
        | none => rw [hesid] at hjs; exact absurd hjs (by simp [jsTruthy])
        | some sid' =>
          have hne : sid' ≠ sid := by
            intro hEq
            unfold sidLineOf at hl
            rw [htrim, hparse] at hl
            simp only [Bool.true_and] at hl
            rw [hesid, hEq] at hl
            simp at hl
          simp only [hesid, Option.getD_some]
          by_cases habs : (List.lookup sid' sessions).isSome = true
          · rw [if_pos habs]
            cases hlook1 : List.lookup sid' sessions with
            | none => rw [hlook1] at habs
            | some session =>
              dsimp only
              rw [lookup_mapSet]
              rw [if_neg (fun h => hne h.symm)]
          · rw [if_neg habs]
            have hbase : List.lookup sid' (mapSet sessions sid' (freshSession sid' now e)) =
                some (freshSession sid' now e) := by
              rw [lookup_mapSet, if_pos rfl]
            rw [hbase]
            dsimp only
            rw [lookup_mapSet]
            rw [if_neg (fun h => hne h.symm), lookup_mapSet,
              if_neg (fun h => hne h.symm)]
      · rw [if_neg hjs]
  · rw [if_neg htrim]

theorem updateSession_id (e : LogEntry) (s : ClaudeSession) :
    (updateSession e s).id = s.id := by
  unfold updateSession
  dsimp only
  split_ifs <;> rfl

theorem updateSession_cwd (e : LogEntry) (s : ClaudeSession) :
    (updateSession e s).cwd = s.cwd := by
  unfold updateSession
  dsimp only
  split_ifs <;> rfl

theorem updateSession_messageCount (e : LogEntry) (s : ClaudeSession) :
    (updateSession e s).messageCount = s.messageCount +
      (if e.role = some "user" ∨ e.role = some "assistant" then 1 else 0) := by
  unfold updateSession
  dsimp only
  split_ifs <;> rfl

theorem updateSession_lastActivity (e : LogEntry) (s : ClaudeSession) :
    (updateSession e s).lastActivity =
      (if e.timestamp.isSome then e.timestamp.getD 0 else s.lastActivity) := by
  unfold updateSession
  dsimp only
  split_ifs <;> rfl

theorem lookup_sessionStep_sid_found (parse : String → Option LogEntry) (now : Nat)
    (sid : String) (sessions : List (String × ClaudeSession)) (l : String)
    (hsid : sid ≠ "") (hl : sidLineOf parse sid l = true)
    (e : LogEntry) (hparse : parse l = some e)
    (s₀ : ClaudeSession) (hlook : List.lookup sid sessions = some s₀) :
    List.lookup sid (sessionStep parse now sessions l) = some (updateSession e s₀) := by
  obtain ⟨htrim, e', hparse', hesid'⟩ := sidLineOf_spec parse sid l hl
  have hee : e' = e := by rw [hparse] at hparse'; exact (Option.some.inj hparse').symm
  subst hee
  have hjs : jsTruthy e'.sessionId = true := by
    rw [hesid']
    simp [jsTruthy, hsid]
  unfold sessionStep
  rw [if_pos htrim, hparse]
  dsimp only
  rw [if_pos hjs]
  simp only [hesid', Option.getD_some]
  rw [if_pos (by rw [hlook]; rfl), hlook]
  dsimp only
  rw [lookup_mapSet, if_pos rfl]

theorem lookup_sessionStep_sid_fresh (parse : String → Option LogEntry) (now : Nat)
    (sid : String) (sessions : List (String × ClaudeSession)) (l : String)
    (hsid : sid ≠ "") (hl : sidLineOf parse sid l = true)
    (e : LogEntry) (hparse : parse l = some e)
    (hlook : List.lookup sid sessions = none) :
    List.lookup sid (sessionStep parse now sessions l) =
      some (updateSession e (freshSession sid now e)) := by
  obtain ⟨htrim, e', hparse', hesid'⟩ := sidLineOf_spec parse sid l hl
  have hee : e' = e := by rw [hparse] at hparse'; exact (Option.some.inj hparse').symm
  subst hee
  have hjs : jsTruthy e'.sessionId = true := by
    rw [hesid']
    simp [jsTruthy, hsid]
  unfold sessionStep
  rw [if_pos htrim, hparse]
  dsimp only
  rw [if_pos hjs]
  simp only [hesid', Option.getD_some]
  rw [if_neg (by rw [hlook]; simp)]
  have hbase : List.lookup sid (mapSet sessions sid (freshSession sid now e')) =
      some (freshSession sid now e') := by
    rw [lookup_mapSet, if_pos rfl]
  rw [hbase]
  dsimp only
  rw [lookup_mapSet, if_pos rfl]

theorem sessionFold_sid (parse : String → Option LogEntry) (now : Nat) (sid : String)
    (hsid : sid ≠ "") :
    ∀ (lines : List String) (sessions : List (String × ClaudeSession)),
      (∀ s₀, List.lookup sid sessions = some s₀ →
        ∃ s, List.lookup sid (lines.foldl (sessionStep parse now) sessions) = some s ∧
          s.id = s₀.id ∧ s.cwd = s₀.cwd ∧
          s.messageCount = s₀.messageCount + qualifyingCount parse sid lines ∧
          s.lastActivity = (lastTimestampOf parse sid lines).getD s₀.lastActivity) ∧
      (List.lookup sid sessions = none →
        (hasSidLine parse sid lines = false →
          List.lookup sid (lines.foldl (sessionStep parse now) sessions) = none) ∧
        (hasSidLine parse sid lines = true →
          ∃ s, List.lookup sid (lines.foldl (sessionStep parse now) sessions) = some s ∧
            s.id = sid ∧
            s.messageCount = qualifyingCount parse sid lines ∧
            s.lastActivity = (lastTimestampOf parse sid lines).getD now)) := by
  intro lines
  induction lines with
  | nil =>
    intro sessions
    constructor
    · intro s₀ h
      exact ⟨s₀, h, rfl, rfl, by simp [qualifyingCount], by simp [lastTimestampOf]⟩
    · intro h
      constructor
      · intro _; exact h
      · intro habs; exact absurd habs (by simp [hasSidLine])
  | cons l rest ih =>
    intro sessions
    by_cases hl : sidLineOf parse sid l = true
    · obtain ⟨htrim, e, hparse, hesid⟩ := sidLineOf_spec parse sid l hl
      have hqc : qualifyingCount parse sid (l :: rest) =
          qualifyingCount parse sid rest +
            (if e.role = some "user" ∨ e.role = some "assistant" then 1 else 0) := by
        unfold qualifyingCount
        simp only [List.countP_cons]
        congr 1
        by_cases hrole : e.role = some "user" ∨ e.role = some "assistant"
        · rcases hrole with h | h
          · simp [hl, hparse, h]
          · simp [hl, hparse, h]
        · have h1 : ¬ e.role = some "user" := fun hh => hrole (Or.inl hh)
          have h2 : ¬ e.role = some "assistant" := fun hh => hrole (Or.inr hh)
          simp [hl, hparse, h1, h2, hrole]
      have hlast : ∀ d : Nat, (lastTimestampOf parse sid (l :: rest)).getD d =
          (lastTimestampOf parse sid rest).getD
            (if e.timestamp.isSome then e.timestamp.getD 0 else d) := by
        intro d
        show (match lastTimestampOf parse sid rest with
              | some t => some t
              | none =>
                if sidLineOf parse sid l then (parse l).bind (fun e => e.timestamp)
                else none).getD d = _
        cases hrest : lastTimestampOf parse sid rest with
        | some t => rfl
        | none =>
          rw [if_pos hl, hparse]
          cases ht : e.timestamp <;> simp [ht]
      cases hlook : List.lookup sid sessions with
      | some s₀ =>
        have hstep := lookup_sessionStep_sid_found parse now sid sessions l hsid hl
          e hparse s₀ hlook
        constructor
        · intro s₀' hlook'
          have heq : s₀' = s₀ := (Option.some.inj hlook').symm
          subst heq
          obtain ⟨s, hs, hid, hcwd, hmc, hla⟩ :=
            (ih (sessionStep parse now sessions l)).1 (updateSession e s₀') hstep
          refine ⟨s, hs, ?_, ?_, ?_, ?_⟩
          · rw [hid, updateSession_id]
          · rw [hcwd, updateSession_cwd]
          · rw [hmc, updateSession_messageCount, hqc]
            omega
          · rw [hla, updateSession_lastActivity, hlast s₀'.lastActivity]
        · intro hnone
          exact absurd hnone (by simp)
      | none =>
        have hstep := lookup_sessionStep_sid_fresh parse now sid sessions l hsid hl
          e hparse hlook
        constructor
        · intro s₀' hlook'
          exact absurd hlook' (by simp)
        · intro _
          constructor
          · intro hfalse
            simp [hasSidLine, List.any_cons, hl] at hfalse
          · intro _
            obtain ⟨s, hs, hid, hcwd, hmc, hla⟩ :=
              (ih (sessionStep parse now sessions l)).1
                (updateSession e (freshSession sid now e)) hstep
            refine ⟨s, hs, ?_, ?_, ?_⟩
            · rw [hid, updateSession_id]
              rfl
            · rw [hmc, updateSession_messageCount, hqc]
              have h0 : (freshSession sid now e).messageCount = 0 := rfl
              rw [h0]
              omega
            · rw [hla, updateSession_lastActivity]
              have h1 : (freshSession sid now e).lastActivity = now := rfl
              rw [h1, hlast now]
    · have hl' : sidLineOf parse sid l = false := by
        simp only [Bool.not_eq_true] at hl
        exact hl
      have hstep := lookup_sessionStep_other parse now sid sessions l hsid hl'
      have hqc : qualifyingCount parse sid (l :: rest) = qualifyingCount parse sid rest := by
        unfold qualifyingCount
        simp only [List.countP_cons]
        rw [if_neg (by simp [hl'])]
        omega
      have hlast : lastTimestampOf parse sid (l :: rest) = lastTimestampOf parse sid rest := by
        show (match lastTimestampOf parse sid rest with
              | some t => some t
              | none =>
                if sidLineOf parse sid l then (parse l).bind (fun e => e.timestamp)
                else none) = _
        cases hrest : lastTimestampOf parse sid rest with
        | some t => rfl
        | none => rw [if_neg (by simp [hl'])]
      have hhas : hasSidLine parse sid (l :: rest) = hasSidLine parse sid rest := by
        simp [hasSidLine, List.any_cons, hl']
      constructor
      · intro s₀ hlook
        obtain ⟨s, hs, hid, hcwd, hmc, hla⟩ :=
          (ih (sessionStep parse now sessions l)).1 s₀ (by rw [hstep]; exact hlook)
        exact ⟨s, hs, hid, hcwd, by rw [hmc, hqc], by rw [hla, hlast]⟩
      · intro hnone
        have hnone' : List.lookup sid (sessionStep parse now sessions l) = none := by
          rw [hstep]
          exact hnone
        obtain ⟨hf, ht⟩ := (ih (sessionStep parse now sessions l)).2 hnone'
        constructor
        · intro h0
          rw [hhas] at h0
          exact hf h0
        · intro h1
          rw [hhas] at h1
          obtain ⟨s, hs, hid, hmc, hla⟩ := ht h1
          exact ⟨s, hs, hid, by rw [hmc, hqc], by rw [hla, hlast]⟩

theorem lookup_mem {α : Type} (m : List (String × α)) (k : String) (v : α)
    (h : List.lookup k m = some v) : (k, v) ∈ m := by
  induction m with
  | nil => exact absurd h (by simp)
  | cons p rest ih =>
    obtain ⟨p1, p2⟩ := p
    by_cases hk : k = p1
    · subst hk
      have : List.lookup k ((k, p2) :: rest) = some p2 := by simp [List.lookup]
      rw [this] at h
      rw [Option.some.inj h]
      exact List.mem_cons_self _ _
    · have hbeq : (k == p1) = false := beq_false_of_ne hk
      simp only [List.lookup, hbeq] at h
      exact List.mem_cons_of_mem _ (ih h)

theorem lookup_eq_of_mem_nodup {α : Type} (m : List (String × α)) (k : String) (v : α)
    (hnd : (m.map Prod.fst).Nodup) (hmem : (k, v) ∈ m) : List.lookup k m = some v := by
  induction m with
  | nil => exact absurd hmem (by simp)
  | cons p rest ih =>
    obtain ⟨p1, p2⟩ := p
    rw [List.map_cons, List.nodup_cons] at hnd
    rcases List.mem_cons.mp hmem with hmem | hmem
    · rw [Prod.mk.injEq] at hmem
      obtain ⟨h1, h2⟩ := hmem
      subst h1
      subst h2
      simp [List.lookup]
    · by_cases hk : k = p1
      · exfalso
        apply hnd.1
        rw [← hk]
        exact List.mem_map.mpr ⟨(k, v), hmem, rfl⟩
      · have hbeq : (k == p1) = false := beq_false_of_ne hk
        simp only [List.lookup, hbeq]
        exact ih hnd.2 hmem

theorem mapSet_keys {α : Type} (m : List (String × α)) (k : String) (v : α) :
    (mapSet m k v).map Prod.fst =
      if m.any (fun p => p.1 = k) then m.map Prod.fst else m.map Prod.fst ++ [k] := by
  unfold mapSet
  by_cases hany : m.any (fun p => p.1 = k) = true
  · rw [if_pos hany, if_pos hany, List.map_map]
    apply List.map_congr_left
    intro p _
    by_cases hp : p.1 = k
    · simp [hp]
    · simp [hp]
  · rw [if_neg hany, if_neg hany, List.map_append]
    rfl

theorem nodup_keys_mapSet {α : Type} (m : List (String × α)) (k : String) (v : α)
    (h : (m.map Prod.fst).Nodup) : ((mapSet m k v).map Prod.fst).Nodup := by
  rw [mapSet_keys]
  by_cases hany : m.any (fun p => p.1 = k) = true
  · rw [if_pos hany]
    exact h
  · rw [if_neg hany]
    have hk : k ∉ m.map Prod.fst := by
      intro hmem
      rcases List.mem_map.mp hmem with ⟨p, hp, hpk⟩
      have : m.any (fun p => p.1 = k) = true := by
        simp only [List.any_eq_true, decide_eq_true_eq]
        exact ⟨p, hp, hpk⟩
      exact hany this
    simp [List.nodup_append, h, hk]

/-- Well-formedness of a sessions map: each value's id equals its key and the keys
are distinct. -/
def sessionsWf (m : List (String × ClaudeSession)) : Prop :=
  (∀ p ∈ m, p.2.id = p.1) ∧ (m.map Prod.fst).Nodup

theorem sessionsWf_mapSet (m : List (String × ClaudeSession)) (k : String)
    (v : ClaudeSession) (h : sessionsWf m) (hv : v.id = k) : sessionsWf (mapSet m k v) := by
  constructor
  · intro p hp
    rcases mem_mapSet m k v p hp with hp | hp
    · rw [hp]
      exact hv
    · exact h.1 p hp
  · exact nodup_keys_mapSet m k v h.2

theorem sessionStep_wf (parse : String → Option LogEntry) (now : Nat)
    (sessions : List (String × ClaudeSession)) (line : String)
    (h : sessionsWf sessions) : sessionsWf (sessionStep parse now sessions line) := by
  unfold sessionStep
  by_cases htrim : jsTrimTruthy line = true
  · rw [if_pos htrim]
    cases hparse : parse line with
    | none => exact h
    | some e =>
      dsimp only
      by_cases hjs : jsTruthy e.sessionId = true
      · rw [if_pos hjs]
        have hwf₁ : sessionsWf
            (if (List.lookup (e.sessionId.getD "") sessions).isSome then sessions
             else mapSet sessions (e.sessionId.getD "")
               (freshSession (e.sessionId.getD "") now e)) := by
          by_cases habs : (List.lookup (e.sessionId.getD "") sessions).isSome = true
          · rw [if_pos habs]
            exact h
          · rw [if_neg habs]
            exact sessionsWf_mapSet _ _ _ h rfl
        cases hlook : List.lookup (e.sessionId.getD "")
            (if (List.lookup (e.sessionId.getD "") sessions).isSome then sessions
             else mapSet sessions (e.sessionId.getD "")
               (freshSession (e.sessionId.getD "") now e)) with
        | none => exact hwf₁
        | some session =>
          have hid : session.id = e.sessionId.getD "" :=
            hwf₁.1 _ (lookup_mem _ _ _ hlook)
          exact sessionsWf_mapSet _ _ _ hwf₁ (by rw [updateSession_id, hid])
      · rw [if_neg hjs]
        exact h
  · rw [if_neg htrim]
    exact h

theorem sessionFold_wf (parse : String → Option LogEntry) (now : Nat)
    (lines : List String) : sessionsWf (lines.foldl (sessionStep parse now) []) :=
  foldl_preserves sessionsWf _ (fun a b hab => sessionStep_wf parse now a b hab) lines []
    ⟨by simp, by simp⟩

theorem mergeStep_wf (acc : List (String × ClaudeSession)) (s : ClaudeSession)
    (h : sessionsWf acc) : sessionsWf (mergeStep acc s) := by
  unfold mergeStep
  by_cases habs : (List.lookup s.id acc).isSome = true
  · rw [if_pos habs]
    exact h
  · rw [if_neg habs]
    exact sessionsWf_mapSet _ _ _ h rfl

theorem mergeFold_wf (ss : List ClaudeSession) (acc : List (String × ClaudeSession))
    (h : sessionsWf acc) : sessionsWf (ss.foldl mergeStep acc) :=
  foldl_preserves sessionsWf _ (fun a b hab => mergeStep_wf a b hab) ss acc h

theorem lookup_mergeFold_mono (sid : String) (ss : List ClaudeSession) :
    ∀ (acc : List (String × ClaudeSession)) (v : ClaudeSession),
      List.lookup sid acc = some v → List.lookup sid (ss.foldl mergeStep acc) = some v := by
  induction ss with
  | nil => intro acc v h; exact h
  | cons s ss' ih =>
    intro acc v h
    show List.lookup sid (ss'.foldl mergeStep (mergeStep acc s)) = some v
    apply ih
    unfold mergeStep
    by_cases habs : (List.lookup s.id acc).isSome = true
    · rw [if_pos habs]
      exact h
    · rw [if_neg habs]
      rw [lookup_mapSet]
      by_cases hk : sid = s.id
      · exfalso
        rw [hk] at h
        rw [h] at habs
        exact habs rfl
      · rw [if_neg hk]
        exact h

theorem lookup_mergeFold_cases (sid : String) (ss : List ClaudeSession) :
    ∀ (acc : List (String × ClaudeSession)) (v : ClaudeSession),
      List.lookup sid (ss.foldl mergeStep acc) = some v →
      List.lookup sid acc = some v ∨
        (List.lookup sid acc = none ∧ v ∈ ss ∧ v.id = sid) := by
  induction ss with
  | nil => intro acc v h; exact Or.inl h
  | cons s ss' ih =>
    intro acc v h
    rcases ih (mergeStep acc s) v h with h1 | ⟨h1, h2, h3⟩
    · unfold mergeStep at h1
      by_cases habs : (List.lookup s.id acc).isSome = true
      · rw [if_pos habs] at h1
        exact Or.inl h1
      · rw [if_neg habs, lookup_mapSet] at h1
        by_cases hk : sid = s.id
        · rw [if_pos hk] at h1
          have hv : v = s := (Option.some.inj h1).symm
          right
          refine ⟨?_, by rw [hv]; exact List.mem_cons_self _ _, by rw [hv, hk]⟩
          rw [hk]
          cases hl : List.lookup s.id acc with
          | none => rfl
          | some w => rw [hl] at habs; exact absurd rfl habs
        · rw [if_neg hk] at h1
          exact Or.inl h1
    · unfold mergeStep at h1
      by_cases habs : (List.lookup s.id acc).isSome = true
      · rw [if_pos habs] at h1
        exact Or.inr ⟨h1, List.mem_cons_of_mem _ h2, h3⟩
      · rw [if_neg habs, lookup_mapSet] at h1
        by_cases hk : sid = s.id
        · rw [if_pos hk] at h1
          exact absurd h1 (by simp)
        · rw [if_neg hk] at h1
          exact Or.inr ⟨h1, List.mem_cons_of_mem _ h2, h3⟩

theorem lookup_mergeFold_found (sid : String) (ss : List ClaudeSession) :
    ∀ (acc : List (String × ClaudeSession)) (s : ClaudeSession),
      s ∈ ss → s.id = sid → List.lookup sid acc = none →
      (List.lookup sid (ss.foldl mergeStep acc)).isSome = true := by
  induction ss with
  | nil => intro acc s h; exact absurd h (by simp)
  | cons s₁ ss' ih =>
    intro acc s hmem hid hnone
    show (List.lookup sid (ss'.foldl mergeStep (mergeStep acc s₁))).isSome = true
    rcases List.mem_cons.mp hmem with hmem | hmem
    · subst hmem
      have hins : List.lookup sid (mergeStep acc s) = some s := by
        unfold mergeStep
        rw [hid]
        rw [if_neg (by rw [hnone]; simp)]
        rw [lookup_mapSet, if_pos rfl]
      rw [lookup_mergeFold_mono sid ss' (mergeStep acc s) s hins]
      rfl
    · cases hlook : List.lookup sid (mergeStep acc s₁) with
      | some v =>
        rw [lookup_mergeFold_mono sid ss' (mergeStep acc s₁) v hlook]
        rfl
      | none => exact ih (mergeStep acc s₁) s hmem hid hlook

theorem countP_snd_id (sid : String) (m : List (String × ClaudeSession))
    (hids : ∀ p ∈ m, p.2.id = p.1) (hnd : (m.map Prod.fst).Nodup)
    (hsome : (List.lookup sid m).isSome = true) :
    (m.map Prod.snd).countP (fun s => s.id = sid) = 1 := by
  induction m with
  | nil => simp at hsome
  | cons p rest ih =>
    obtain ⟨p1, p2⟩ := p
    rw [List.map_cons, List.nodup_cons] at hnd
    have hp2 : p2.id = p1 := hids (p1, p2) (List.mem_cons_self _ _)
    by_cases hk : p1 = sid
    · subst hk
      have hzero : (rest.map Prod.snd).countP (fun s => s.id = p1) = 0 := by
        rw [List.countP_eq_zero]
        intro s hs
        rcases List.mem_map.mp hs with ⟨q, hq, hqs⟩
        have hq1 : q.2.id = q.1 := hids q (List.mem_cons_of_mem _ hq)
        simp only [decide_eq_true_eq]
        rw [← hqs, hq1]
        intro hEq
        apply hnd.1
        rw [← hEq]
        exact List.mem_map.mpr ⟨q, hq, rfl⟩
      rw [List.map_cons, List.countP_cons, hzero]
      simp [hp2]
    · have hrest : (List.lookup sid rest).isSome = true := by
        have hbeq : (sid == p1) = false := by
          apply beq_false_of_ne
          intro hEq
          exact hk hEq.symm
        simp only [List.lookup, hbeq] at hsome
        exact hsome
      have := ih (fun q hq => hids q (List.mem_cons_of_mem _ hq)) hnd.2 hrest
      rw [List.map_cons, List.countP_cons, this]
      have hfalse : (decide (p2.id = sid)) = false := by
        simp only [decide_eq_false_iff_not]
        rw [hp2]
        exact hk
      simp [hfalse]

theorem parseJsonl_mem_lookup (parse : String → Option LogEntry) (now : Nat)
    (lines : List String) (sid : String) (s : ClaudeSession)
    (hmem : s ∈ parseJsonlSessions parse now lines) (hid : s.id = sid) :
    List.lookup sid (lines.foldl (sessionStep parse now) []) = some s := by
  unfold parseJsonlSessions at hmem
  have hmem' : s ∈ (lines.foldl (sessionStep parse now) []).map Prod.snd :=
    (sortStable_perm _ _).mem_iff.mp hmem
  rcases List.mem_map.mp hmem' with ⟨p, hp, hps⟩
  have hwf := sessionFold_wf parse now lines
  have hp1 : p.1 = sid := by
    rw [← hwf.1 p hp, hps, hid]
  have hpair : (sid, s) ∈ lines.foldl (sessionStep parse now) [] := by
    have : p = (sid, s) := by
      rw [← hp1, ← hps]
    rw [← this]
    exact hp
  exact lookup_eq_of_mem_nodup _ _ _ hwf.2 hpair

theorem parseJsonl_lookup_mem (parse : String → Option LogEntry) (now : Nat)
    (lines : List String) (sid : String) (s : ClaudeSession)
    (h : List.lookup sid (lines.foldl (sessionStep parse now) []) = some s) :
    s ∈ parseJsonlSessions parse now lines := by
  unfold parseJsonlSessions
  apply (sortStable_perm _ _).mem_iff.mpr
  exact List.mem_map.mpr ⟨(sid, s), lookup_mem _ _ _ h, rfl⟩

/-- C3 (amended): when two `.jsonl` files both carry lines with the same session id,
`getClaudeSessions` returns exactly one summary for that id; its `messageCount` and
`lastActivity` come from the single newer-mtime file alone (first-writer-wins):
the count of that file's `role∈{user,assistant}` lines for the id, and the
timestamp of that file's last timestamped line for the id (read time `now` if
none) — not the union count or the overall maximum timestamp. -/
theorem getClaudeSessions_merge_spec (parse : String → Option LogEntry) (now : Nat)
    (nameA nameB : String) (mtA mtB : Nat) (linesA linesB : List String)
    (sid : String) (limit : Nat)
    (hjsA : endsWithJsonl nameA = true) (hjsB : endsWithJsonl nameB = true)
    (hsid : sid ≠ "") (hmt : mtB ≤ mtA)
    (hA : hasSidLine parse sid linesA = true)
    (hB : hasSidLine parse sid linesB = true)
    (hlim : (getClaudeSessions parse now [(nameA, mtA, linesA), (nameB, mtB, linesB)]
        limit 0).total ≤ limit) :
    ((getClaudeSessions parse now [(nameA, mtA, linesA), (nameB, mtB, linesB)]
        limit 0).sessions.countP (fun s => s.id = sid) = 1) ∧
    (∀ s ∈ (getClaudeSessions parse now [(nameA, mtA, linesA), (nameB, mtB, linesB)]
        limit 0).sessions, s.id = sid →
      s.messageCount = qualifyingCount parse sid linesA ∧
      s.lastActivity = (lastTimestampOf parse sid linesA).getD now) := by
  obtain ⟨sA, hlookA, hidA, hmcA, hlaA⟩ :=
    ((sessionFold_sid parse now sid hsid linesA []).2 (by simp)).2 hA
  have hmemA : sA ∈ parseJsonlSessions parse now linesA :=
    parseJsonl_lookup_mem parse now linesA sid sA hlookA
  -- the merged association list
  have hacc1 : List.lookup sid
      ((parseJsonlSessions parse now linesA).foldl mergeStep []) = some sA := by
    have hfound := lookup_mergeFold_found sid (parseJsonlSessions parse now linesA)
      [] sA hmemA hidA (by simp)
    cases hv : List.lookup sid ((parseJsonlSessions parse now linesA).foldl mergeStep []) with
    | none => rw [hv] at hfound; simp at hfound
    | some v =>
      rcases lookup_mergeFold_cases sid _ [] v hv with h1 | ⟨_, h2, h3⟩
      · simp at h1
      · have hsv : List.lookup sid (linesA.foldl (sessionStep parse now) []) = some v :=
          parseJsonl_mem_lookup parse now linesA sid v h2 h3
        rw [hlookA] at hsv
        exact hsv.symm
  have hacc2 : List.lookup sid
      ((parseJsonlSessions parse now linesB).foldl mergeStep
        ((parseJsonlSessions parse now linesA).foldl mergeStep [])) = some sA :=
    lookup_mergeFold_mono sid _ _ sA hacc1
  have hwf2 : sessionsWf
      ((parseJsonlSessions parse now linesB).foldl mergeStep
        ((parseJsonlSessions parse now linesA).foldl mergeStep [])) :=
    mergeFold_wf _ _ (mergeFold_wf _ _ ⟨by simp, by simp⟩)
  -- unfold getClaudeSessions on the two-file directory
  have hfilter : ([(nameA, mtA, linesA), (nameB, mtB, linesB)]).filter
      (fun f => endsWithJsonl f.1) = [(nameA, mtA, linesA), (nameB, mtB, linesB)] := by
    simp [List.filter, hjsA, hjsB]
  have hsorted : sortStable (fun (a b : String × Nat × List String) => b.2.1 ≤ a.2.1)
      [(nameA, mtA, linesA), (nameB, mtB, linesB)] =
      [(nameA, mtA, linesA), (nameB, mtB, linesB)] :=
    sortStable_pair _ _ _ (by simpa using hmt)
  have hres : getClaudeSessions parse now [(nameA, mtA, linesA), (nameB, mtB, linesB)]
      limit 0 =
      { sessions := ((sortStable (fun a b => b.lastActivity ≤ a.lastActivity)
          (((parseJsonlSessions parse now linesB).foldl mergeStep
            ((parseJsonlSessions parse now linesA).foldl mergeStep [])).map
              Prod.snd)).drop 0).take limit,
        hasMore := decide (0 + limit < (sortStable
          (fun a b => b.lastActivity ≤ a.lastActivity)
          (((parseJsonlSessions parse now linesB).foldl mergeStep
            ((parseJsonlSessions parse now linesA).foldl mergeStep [])).map
              Prod.snd)).length),
        total := (sortStable (fun a b => b.lastActivity ≤ a.lastActivity)
          (((parseJsonlSessions parse now linesB).foldl mergeStep
            ((parseJsonlSessions parse now linesA).foldl mergeStep [])).map
              Prod.snd)).length,
        offset := 0, limit := limit } := by
    unfold getClaudeSessions
    rw [hfilter]
    rw [if_neg (by simp)]
    rw [hsorted]
    rfl
  rw [hres] at hlim ⊢
  simp only at hlim
  have htake : ((sortStable (fun a b => b.lastActivity ≤ a.lastActivity)
      (((parseJsonlSessions parse now linesB).foldl mergeStep
        ((parseJsonlSessions parse now linesA).foldl mergeStep [])).map
          Prod.snd)).drop 0).take limit =
      sortStable (fun a b => b.lastActivity ≤ a.lastActivity)
        (((parseJsonlSessions parse now linesB).foldl mergeStep
          ((parseJsonlSessions parse now linesA).foldl mergeStep [])).map Prod.snd) := by
    rw [List.drop_zero, List.take_of_length_le hlim]
  constructor
  · show (((sortStable (fun a b => b.lastActivity ≤ a.lastActivity)
        (((parseJsonlSessions parse now linesB).foldl mergeStep
          ((parseJsonlSessions parse now linesA).foldl mergeStep [])).map
            Prod.snd)).drop 0).take limit).countP (fun s => s.id = sid) = 1
    rw [htake, (sortStable_perm _ _).countP_eq]
    exact countP_snd_id sid _ hwf2.1 hwf2.2 (by rw [hacc2]; rfl)
  · intro s hs hid
    have hs2 : s ∈ ((sortStable (fun a b => b.lastActivity ≤ a.lastActivity)
        (((parseJsonlSessions parse now linesB).foldl mergeStep
          ((parseJsonlSessions parse now linesA).foldl mergeStep [])).map
            Prod.snd)).drop 0).take limit := hs
    rw [htake] at hs2
    have hs' : s ∈ (((parseJsonlSessions parse now linesB).foldl mergeStep
        ((parseJsonlSessions parse now linesA).foldl mergeStep [])).map Prod.snd) :=
      (sortStable_perm _ _).mem_iff.mp hs2
    rcases List.mem_map.mp hs' with ⟨p, hp, hps⟩
    have hp1 : p.1 = sid := by
      rw [← hwf2.1 p hp, hps, hid]
    have hpair : (sid, s) ∈ (parseJsonlSessions parse now linesB).foldl mergeStep
        ((parseJsonlSessions parse now linesA).foldl mergeStep []) := by
      have hpe : p = (sid, s) := by
        rw [← hp1, ← hps]
      rw [← hpe]
      exact hp
    have hl : List.lookup sid ((parseJsonlSessions parse now linesB).foldl mergeStep
        ((parseJsonlSessions parse now linesA).foldl mergeStep [])) = some s :=
      lookup_eq_of_mem_nodup _ _ _ hwf2.2 hpair
    rw [hacc2] at hl
    have hsa : sA = s := Option.some.inj hl
    rw [← hsa]
    exact ⟨hmcA, hlaA⟩

/-- C3 witness: the merge theorem applied to the concrete two-file directory of the
counterexample, discharging every hypothesis by computation. -/
theorem getClaudeSessions_merge_spec_witness :
    ((getClaudeSessions mergeExampleParse 999
        [("f1.jsonl", 2, ["u1"]), ("f2.jsonl", 1, ["u2"])] 5 0).sessions.countP
      (fun s => s.id = "s") = 1) ∧
    (∀ s ∈ (getClaudeSessions mergeExampleParse 999
        [("f1.jsonl", 2, ["u1"]), ("f2.jsonl", 1, ["u2"])] 5 0).sessions, s.id = "s" →
      s.messageCount = qualifyingCount mergeExampleParse "s" ["u1"] ∧
      s.lastActivity = (lastTimestampOf mergeExampleParse "s" ["u1"]).getD 999) :=
  getClaudeSessions_merge_spec mergeExampleParse 999 "f1.jsonl" "f2.jsonl" 2 1
    ["u1"] ["u2"] "s" 5 (by decide) (by decide) (by decide) (by decide) (by decide)
    (by decide) (by decide)

/-! ## Session deletion (sessionManagerNew.ts deleteSession, lines 252-315) -/

/-- The non-blank lines of a file body:
`content.split('\n').filter(line => line.trim())`. -/
def contentLines (content : String) : List String :=
  ((splitChar '\n' content.data).map String.mk).filter (fun l => jsTrimTruthy l)

/-- Whether a line parses to an entry whose `sessionId` strictly equals the target
(`data.sessionId === sessionId`); malformed lines do not match. -/
def lineMatchesSid (parse : String → Option LogEntry) (sid : String) (l : String) : Bool :=
  match parse l with
  | some e => decide (e.sessionId = some sid)
  | none => false

/-- Whether a file body contains a line of the target session. -/
def fileHasSession (parse : String → Option LogEntry) (sid : String)
    (content : String) : Bool :=
  (contentLines content).any (lineMatchesSid parse sid)

/-- JS `Array.prototype.join('\n')` at the character level. -/
def joinCh (sep : Char) : List (List Char) → List Char
  | [] => []
  | [l] => l
  | l :: rest => l ++ sep :: joinCh sep rest

/-- The rewritten body of a file containing the target session:
`filteredLines.join('\n') + '\n'` when any line remains, else the empty body. -/
def rewriteContent (parse : String → Option LogEntry) (sid : String)
    (content : String) : String :=
  let filteredLines := (contentLines content).filter
    (fun l => !lineMatchesSid parse sid l)
  if filteredLines.length > 0 then
    String.mk (joinCh '\n' (filteredLines.map String.data) ++ ['\n'])
  else ""

/-- The per-file effect of `deleteSession`: rewrite exactly the `.jsonl` files that
contain the session, leave every other file untouched. -/
def deleteSessionRun (parse : String → Option LogEntry) (sid : String)
    (dir : List (String × String)) : List (String × String) :=
  dir.map (fun f =>
    if endsWithJsonl f.1 && fileHasSession parse sid f.2 then
      (f.1, rewriteContent parse sid f.2)
    else f)

/-- Embedding of `deleteSession` (sessionManagerNew.ts, lines 252-315): fail when the
directory holds no `.jsonl` file; rewrite the files containing the session; fail
(after no write has happened) when none contains it. -/
def deleteSession (parse : String → Option LogEntry) (sid : String)
    (dir : List (String × String)) : Except String (List (String × String)) :=
  if (dir.filter (fun f => endsWithJsonl f.1)).isEmpty then
    Except.error "No session files found for this project"
  else if dir.any (fun f => endsWithJsonl f.1 && fileHasSession parse sid f.2) then
    Except.ok (deleteSessionRun parse sid dir)
  else Except.error ("Session " ++ sid ++ " not found in any files")

theorem splitChar_ne_nil (sep : Char) (cs : List Char) : splitChar sep cs ≠ [] := by
  cases cs with
  | nil => simp [splitChar]
  | cons c rest =>
    unfold splitChar
    by_cases h : c = sep
    · simp [h]
    · rw [if_neg h]
      cases splitChar sep rest with
      | nil => simp
      | cons hd tl => simp

theorem splitChar_not_mem_sep (sep : Char) :
    ∀ (cs : List Char) (seg : List Char), seg ∈ splitChar sep cs → sep ∉ seg := by
  intro cs
  induction cs with
  | nil =>
    intro seg hseg
    rw [show splitChar sep [] = [[]] from rfl] at hseg
    rw [List.mem_singleton.mp hseg]
    simp
  | cons c rest ih =>
    intro seg hseg
    unfold splitChar at hseg
    by_cases h : c = sep
    · rw [if_pos h] at hseg
      rcases List.mem_cons.mp hseg with hseg | hseg
      · rw [hseg]; simp
      · exact ih seg hseg
    · rw [if_neg h] at hseg
      cases hr : splitChar sep rest with
      | nil => exact absurd hr (splitChar_ne_nil sep rest)
      | cons hd tl =>
        rw [hr] at hseg
        rcases List.mem_cons.mp hseg with hseg | hseg
        · rw [hseg]
          intro hmem
          rcases List.mem_cons.mp hmem with hmem | hmem
          · exact h hmem.symm
          · exact ih hd (by rw [hr]; exact List.mem_cons_self _ _) hmem
        · exact ih seg (by rw [hr]; exact List.mem_cons_of_mem _ hseg)

theorem splitChar_sep_free (sep : Char) :
    ∀ seg : List Char, sep ∉ seg → splitChar sep seg = [seg] := by
  intro seg
  induction seg with
  | nil => intro _; rfl
  | cons c rest ih =>
    intro h
    have hc : c ≠ sep := fun hEq => h (hEq ▸ List.mem_cons_self _ _)
    have hrest : sep ∉ rest := fun hmem => h (List.mem_cons_of_mem _ hmem)
    unfold splitChar
    rw [if_neg hc, ih hrest]

theorem splitChar_cons (sep c : Char) (rest : List Char) :
    splitChar sep (c :: rest) =
      if c = sep then [] :: splitChar sep rest
      else
        match splitChar sep rest with
        | [] => [[c]]
        | h :: t => (c :: h) :: t := by
  rfl

theorem splitChar_append_sep (sep : Char) :
    ∀ (seg ys : List Char), sep ∉ seg →
      splitChar sep (seg ++ sep :: ys) = seg :: splitChar sep ys := by
  intro seg
  induction seg with
  | nil =>
    intro ys _
    show splitChar sep (sep :: ys) = [] :: splitChar sep ys
    rw [splitChar_cons, if_pos rfl]
  | cons c rest ih =>
    intro ys h
    have hc : c ≠ sep := fun hEq => h (hEq ▸ List.mem_cons_self _ _)
    have hrest : sep ∉ rest := fun hmem => h (List.mem_cons_of_mem _ hmem)
    show splitChar sep (c :: (rest ++ sep :: ys)) = _
    rw [splitChar_cons, if_neg hc, ih ys hrest]

theorem splitChar_joinCh (sep : Char) :
    ∀ segs : List (List Char), segs ≠ [] → (∀ seg ∈ segs, sep ∉ seg) →
      splitChar sep (joinCh sep segs ++ [sep]) = segs ++ [[]] := by
  intro segs
  induction segs with
  | nil => intro h; exact absurd rfl h
  | cons s rest ih =>
    intro _ hfree
    have hs : sep ∉ s := hfree s (List.mem_cons_self _ _)
    cases rest with
    | nil =>
      show splitChar sep (s ++ [sep]) = [s, []]
      have : s ++ [sep] = s ++ sep :: [] := rfl
      rw [this, splitChar_append_sep sep s [] hs]
      rfl
    | cons s₂ rest' =>
      show splitChar sep ((s ++ sep :: joinCh sep (s₂ :: rest')) ++ [sep]) = _
      rw [List.append_assoc, List.cons_append, splitChar_append_sep sep s _ hs]
      rw [ih (by simp) (fun seg hseg => hfree seg (List.mem_cons_of_mem _ hseg))]
      rfl

theorem stringMk_data (s : String) : String.mk s.data = s := rfl

theorem map_mk_data : ∀ ls : List String, (ls.map String.data).map String.mk = ls := by
  intro ls
  induction ls with
  | nil => rfl
  | cons l rest ih => simp only [List.map_cons, stringMk_data, ih]

theorem mem_contentLines_data (c : String) (l : String) (h : l ∈ contentLines c) :
    ('\n' : Char) ∉ l.data ∧ jsTrimTruthy l = true := by
  unfold contentLines at h
  obtain ⟨hmem, htrim⟩ := List.mem_filter.mp h
  refine ⟨?_, htrim⟩
  obtain ⟨seg, hseg, hl⟩ := List.mem_map.mp hmem
  rw [← hl]
  exact splitChar_not_mem_sep '\n' c.data seg hseg

theorem contentLines_rewriteContent (parse : String → Option LogEntry) (sid : String)
    (c : String) :
    contentLines (rewriteContent parse sid c) =
      (contentLines c).filter (fun l => !lineMatchesSid parse sid l) := by
  cases hF : (contentLines c).filter (fun l => !lineMatchesSid parse sid l) with
  | nil =>
    simp only [rewriteContent, hF]
    rfl
  | cons l₀ rest =>
    have hfree : ∀ seg ∈ ((l₀ :: rest).map String.data), ('\n' : Char) ∉ seg := by
      intro seg hseg
      obtain ⟨l, hl, hld⟩ := List.mem_map.mp hseg
      rw [← hF] at hl
      rw [← hld]
      exact (mem_contentLines_data c l (List.mem_filter.mp hl).1).1
    simp only [rewriteContent, hF, List.length_cons]
    rw [if_pos (Nat.succ_pos _)]
    show (((splitChar '\n'
        (joinCh '\n' ((l₀ :: rest).map String.data) ++ ['\n'])).map String.mk).filter
        (fun l => jsTrimTruthy l)) = l₀ :: rest
    rw [splitChar_joinCh '\n' ((l₀ :: rest).map String.data) (by simp) hfree]
    rw [List.map_append, map_mk_data]
    rw [List.filter_append]
    have h1 : (l₀ :: rest).filter (fun l => jsTrimTruthy l) = l₀ :: rest := by
      rw [List.filter_eq_self]
      intro l hl
      rw [← hF] at hl
      exact (mem_contentLines_data c l (List.mem_filter.mp hl).1).2
    have h2 : (([[]] : List (List Char)).map String.mk).filter
        (fun l => jsTrimTruthy l) = [] := rfl
    rw [h1, h2, List.append_nil]

theorem rewriteContent_trailing_newline (parse : String → Option LogEntry)
    (sid : String) (c : String) (h : rewriteContent parse sid c ≠ "") :
    (rewriteContent parse sid c).data.getLast? = some '\n' := by
  cases hF : (contentLines c).filter (fun l => !lineMatchesSid parse sid l) with
  | nil =>
    exfalso
    apply h
    simp only [rewriteContent, hF]
    rfl
  | cons l₀ rest =>
    simp only [rewriteContent, hF, List.length_cons]
    rw [if_pos (Nat.succ_pos _)]
    show (joinCh '\n' ((l₀ :: rest).map String.data) ++ ['\n']).getLast? = some '\n'
    rw [List.getLast?_append]
    rfl

/-- C5: `deleteSession` rewrites exactly the `.jsonl` files (at their position) that
contain a parseable line of the target session: the rewritten body's non-blank lines
are the original ones with the session's parseable lines removed (malformed lines are
kept), and a non-empty rewritten body ends with a newline; when no `.jsonl` file
contains the session (or there is none) the call fails and every file is left
byte-identical. -/
theorem deleteSession_spec (parse : String → Option LogEntry) (sid : String)
    (dir : List (String × String)) :
    ((∃ f ∈ dir, endsWithJsonl f.1 = true ∧ fileHasSession parse sid f.2 = true) →
      deleteSession parse sid dir = Except.ok (deleteSessionRun parse sid dir)) ∧
    ((¬ ∃ f ∈ dir, endsWithJsonl f.1 = true ∧ fileHasSession parse sid f.2 = true) →
      (∃ e, deleteSession parse sid dir = Except.error e) ∧
      deleteSessionRun parse sid dir = dir) ∧
    (∀ (n : Nat) (f : String × String), dir[n]? = some f →
      (deleteSessionRun parse sid dir)[n]? =
        some (if endsWithJsonl f.1 && fileHasSession parse sid f.2 then
          (f.1, rewriteContent parse sid f.2) else f)) ∧
    (∀ c : String, contentLines (rewriteContent parse sid c) =
      (contentLines c).filter (fun l => !lineMatchesSid parse sid l)) ∧
    (∀ c : String, rewriteContent parse sid c ≠ "" →
      (rewriteContent parse sid c).data.getLast? = some '\n') ∧
    (∀ (c l : String), l ∈ contentLines c → parse l = none →
      l ∈ contentLines (rewriteContent parse sid c)) := by
  refine ⟨?_, ?_, ?_, ?_, ?_, ?_⟩
  · rintro ⟨f, hf, hjs, hhs⟩
    have hmemf : f ∈ dir.filter (fun f => endsWithJsonl f.1) :=
      List.mem_filter.mpr ⟨hf, hjs⟩
    have hnotempty : (dir.filter (fun f => endsWithJsonl f.1)).isEmpty = false := by
      cases hfe : dir.filter (fun f => endsWithJsonl f.1) with
      | nil => rw [hfe] at hmemf; exact absurd hmemf (List.not_mem_nil f)
      | cons a b => rfl
    have hany : dir.any (fun f => endsWithJsonl f.1 && fileHasSession parse sid f.2)
        = true :=
      List.any_eq_true.mpr ⟨f, hf, by rw [hjs, hhs]; rfl⟩
    unfold deleteSession
    rw [if_neg (by rw [hnotempty]; exact Bool.false_ne_true), if_pos hany]
  · intro hne
    have hnoact : ∀ f ∈ dir,
        (if endsWithJsonl f.1 && fileHasSession parse sid f.2 then
          (f.1, rewriteContent parse sid f.2) else f) = f := by
      intro f hf
      rw [if_neg]
      intro hp
      simp only [Bool.and_eq_true] at hp
      exact hne ⟨f, hf, hp.1, hp.2⟩
    constructor
    · unfold deleteSession
      by_cases hje : (dir.filter (fun f => endsWithJsonl f.1)).isEmpty = true
      · rw [if_pos hje]
        exact ⟨_, rfl⟩
      · rw [if_neg hje]
        have hnoany : ¬ (dir.any
            (fun f => endsWithJsonl f.1 && fileHasSession parse sid f.2) = true) := by
          intro hany
          obtain ⟨f, hf, hp⟩ := List.any_eq_true.mp hany
          simp only [Bool.and_eq_true] at hp
          exact hne ⟨f, hf, hp.1, hp.2⟩
        rw [if_neg hnoany]
        exact ⟨_, rfl⟩
    · unfold deleteSessionRun
      have h2 := List.map_congr_left hnoact
      rw [h2]
      simp
  · intro n f hf
    unfold deleteSessionRun
    rw [List.getElem?_map, hf]
    rfl
  · intro c
    exact contentLines_rewriteContent parse sid c
  · intro c
    exact rewriteContent_trailing_newline parse sid c
  · intro c l hl hparse
    rw [contentLines_rewriteContent]
    have hno : lineMatchesSid parse sid l = false := by
      unfold lineMatchesSid
      rw [hparse]
    refine List.mem_filter.mpr ⟨hl, ?_⟩
    rw [hno]
    rfl

theorem deleteSession_spec_witness :
    deleteSession mergeExampleParse "s" [("a.jsonl", "u1\nbad\nu2\n"), ("b.txt", "u1")] =
      Except.ok [("a.jsonl", "bad\n"), ("b.txt", "u1")] ∧
    (∃ e, deleteSession mergeExampleParse "s" [("a.jsonl", "x\n")] = Except.error e) ∧
    deleteSessionRun mergeExampleParse "s" [("a.jsonl", "x\n")] = [("a.jsonl", "x\n")] ∧
    (deleteSessionRun mergeExampleParse "s"
      [("a.jsonl", "u1\nbad\nu2\n"), ("b.txt", "u1")])[1]? = some ("b.txt", "u1") ∧
    (rewriteContent mergeExampleParse "s" "u1\nbad\nu2\n").data.getLast? = some '\n' ∧
    "bad" ∈ contentLines (rewriteContent mergeExampleParse "s" "u1\nbad\nu2\n") := by
  refine ⟨?_, ?_, ?_, ?_, ?_, ?_⟩
  · have h := (deleteSession_spec mergeExampleParse "s"
      [("a.jsonl", "u1\nbad\nu2\n"), ("b.txt", "u1")]).1 (by decide)
    rw [h]
    rfl
  · exact ((deleteSession_spec mergeExampleParse "s" [("a.jsonl", "x\n")]).2.1
      (by decide)).1
  · exact ((deleteSession_spec mergeExampleParse "s" [("a.jsonl", "x\n")]).2.1
      (by decide)).2
  · have h := (deleteSession_spec mergeExampleParse "s"
      [("a.jsonl", "u1\nbad\nu2\n"), ("b.txt", "u1")]).2.2.1 1 ("b.txt", "u1") rfl
    rw [h]
    rfl
  · exact (deleteSession_spec mergeExampleParse "s"
      [("a.jsonl", "u1\nbad\nu2\n"), ("b.txt", "u1")]).2.2.2.2.1 "u1\nbad\nu2\n"
      (by decide)
  · exact (deleteSession_spec mergeExampleParse "s"
      [("a.jsonl", "u1\nbad\nu2\n"), ("b.txt", "u1")]).2.2.2.2.2 "u1\nbad\nu2\n" "bad"
      (by decide) (by decide)

/-! ## Spawn stream handling and the live-process map
(claudeCliService.ts spawnClaude lines 350-401, abortClaudeSession lines 474-483) -/

/-- A non-blank stdout line: either one that `JSON.parse` accepts (with an optional
truthy-or-not `session_id` field and a payload tag standing for the rest of the
object) or one it rejects. -/
inductive StdoutLine where
  | json (sid : Option String) (tag : Nat)
  | raw (s : String)
deriving DecidableEq

/-- A frame sent to the originating socket by the stdout handler. -/
inductive Frame where
  | sessionCreated (sid : String)
  | claudeResponse (sid : Option String) (tag : Nat)
  | claudeOutput (s : String)
deriving DecidableEq

/-- The mutable state of one `spawnClaude` invocation: `capturedSessionId`,
`sessionCreatedSent`, the shared `activeClaudeProcesses` map (process handles as
`Nat`) and the `const processKey`. -/
structure SpawnState where
  capturedSessionId : Option String
  sessionCreatedSent : Bool
  processes : List (String × Nat)
  processKey : String
deriving DecidableEq

/-- State right after the spawn: `capturedSessionId = sessionId`,
`processKey = capturedSessionId || sessionId || Date.now().toString()`, and
`activeClaudeProcesses.set(processKey, claudeProcess)`. -/
def spawnInit (sessionId : Option String) (tsKey : String) (proc : Nat)
    (m₀ : List (String × Nat)) : SpawnState :=
  let processKey := if jsTruthy sessionId then sessionId.getD "" else tsKey
  { capturedSessionId := sessionId
    sessionCreatedSent := false
    processes := mapSet m₀ processKey proc
    processKey := processKey }

/-- The handler body for one non-blank stdout line (lines 361-400): on a parsed
object with a truthy `session_id` while `capturedSessionId` is falsy, capture it,
re-key the process map when `processKey !== capturedSessionId`, and emit the
one-shot `session-created` when the invocation started without a truthy
`sessionId`; always emit the `claude-response` (or `claude-output` for an
unparseable line). -/
def handleLine (inputSessionId : Option String) (proc : Nat) (st : SpawnState) :
    StdoutLine → SpawnState × List Frame
  | StdoutLine.raw s => (st, [Frame.claudeOutput s])
  | StdoutLine.json sidOpt tag =>
    if jsTruthy sidOpt && !jsTruthy st.capturedSessionId then
      let sid := sidOpt.getD ""
      let st₁ := { st with capturedSessionId := some sid }
      let st₂ :=
        if st.processKey ≠ sid then
          { st₁ with
            processes := mapSet (mapDelete st.processes st.processKey) sid proc }
        else st₁
      if !jsTruthy inputSessionId && !st.sessionCreatedSent then
        ({ st₂ with sessionCreatedSent := true },
          [Frame.sessionCreated sid, Frame.claudeResponse sidOpt tag])
      else (st₂, [Frame.claudeResponse sidOpt tag])
    else (st, [Frame.claudeResponse sidOpt tag])

/-- Fold of the stdout handler over the stream of non-blank lines, collecting the
frames in emission order. -/
def spawnStream (inputSessionId : Option String) (proc : Nat) (st : SpawnState) :
    List StdoutLine → SpawnState × List Frame
  | [] => (st, [])
  | l :: rest =>
    let p := handleLine inputSessionId proc st l
    let q := spawnStream inputSessionId proc p.1 rest
    (q.1, p.2 ++ q.2)

/-- One whole invocation: spawn, then process the stdout stream. -/
def spawnRun (sessionId : Option String) (tsKey : String) (proc : Nat)
    (m₀ : List (String × Nat)) (lines : List StdoutLine) :
    SpawnState × List Frame :=
  spawnStream sessionId proc (spawnInit sessionId tsKey proc m₀) lines

/-- Embedding of `abortClaudeSession` (lines 474-483): look the id up in the
process map; on a hit kill the child, remove the entry and return `true`,
otherwise return `false`. -/
def abortClaudeSession (m : List (String × Nat)) (sessionId : String) :
    Bool × List (String × Nat) :=
  match List.lookup sessionId m with
  | some _ => (true, mapDelete m sessionId)
  | none => (false, m)

/-- The `session_id` the first capturing line would set, if any. -/
def firstCapturedSid : List StdoutLine → Option String
  | [] => none
  | StdoutLine.json sidOpt _ :: rest =>
    if jsTruthy sidOpt then some (sidOpt.getD "") else firstCapturedSid rest
  | StdoutLine.raw _ :: rest => firstCapturedSid rest

def Frame.isSessionCreated : Frame → Bool
  | Frame.sessionCreated _ => true
  | _ => false

/-- C7 counterexample: an invocation started without a sessionId whose first parsed
object carries no `session_id` sends that object's `claude-response` frame before
the `session-created` frame, so `session-created` does not precede the first
response frame of the stream (it only precedes the first response carrying the
captured id). -/
theorem spawnRun_created_after_first_response :
    (spawnRun none "ts0" 7 [] [StdoutLine.json none 0,
        StdoutLine.json (some "abc") 1]).2 =
      [Frame.claudeResponse none 0, Frame.sessionCreated "abc",
       Frame.claudeResponse (some "abc") 1] ∧
    ((spawnRun none "ts0" 7 [] [StdoutLine.json none 0,
        StdoutLine.json (some "abc") 1]).2.head?.map Frame.isSessionCreated
      = some false) := by
  constructor
  · rfl
  · rfl

theorem handleLine_raw (inputS : Option String) (proc : Nat) (st : SpawnState)
    (s : String) :
    handleLine inputS proc st (StdoutLine.raw s) = (st, [Frame.claudeOutput s]) := rfl

theorem handleLine_nocapture (inputS : Option String) (proc : Nat) (st : SpawnState)
    (sidOpt : Option String) (tag : Nat)
    (hc : (jsTruthy sidOpt && !jsTruthy st.capturedSessionId) = false) :
    handleLine inputS proc st (StdoutLine.json sidOpt tag) =
      (st, [Frame.claudeResponse sidOpt tag]) := by
  simp only [handleLine]
  rw [if_neg (by rw [hc]; exact Bool.false_ne_true)]

theorem handleLine_capture (inputS : Option String) (proc : Nat) (st : SpawnState)
    (sidOpt : Option String) (tag : Nat)
    (hsb : jsTruthy sidOpt = true) (hcap : jsTruthy st.capturedSessionId = false)
    (hin : jsTruthy inputS = false) (hsent : st.sessionCreatedSent = false) :
    (handleLine inputS proc st (StdoutLine.json sidOpt tag)).2 =
      [Frame.sessionCreated (sidOpt.getD ""), Frame.claudeResponse sidOpt tag] ∧
    (handleLine inputS proc st (StdoutLine.json sidOpt tag)).1.capturedSessionId =
      some (sidOpt.getD "") ∧
    (handleLine inputS proc st (StdoutLine.json sidOpt tag)).1.sessionCreatedSent =
      true ∧
    (handleLine inputS proc st (StdoutLine.json sidOpt tag)).1.processes =
      (if st.processKey ≠ sidOpt.getD "" then
        mapSet (mapDelete st.processes st.processKey) (sidOpt.getD "") proc
       else st.processes) := by
  have hc : (jsTruthy sidOpt && !jsTruthy st.capturedSessionId) = true := by
    rw [hsb, hcap]; rfl
  have hc2 : (!jsTruthy inputS && !st.sessionCreatedSent) = true := by
    rw [hin, hsent]; rfl
  simp only [handleLine]
  rw [if_pos hc, if_pos hc2]
  refine ⟨rfl, ?_, rfl, ?_⟩
  · by_cases hk : st.processKey ≠ sidOpt.getD ""
    · rw [if_pos hk]
    · rw [if_neg hk]
  · by_cases hk : st.processKey ≠ sidOpt.getD ""
    · rw [if_pos hk, if_pos hk]
    · rw [if_neg hk, if_neg hk]

theorem spawnStream_no_created_of_captured (inputS : Option String) (proc : Nat) :
    ∀ (lines : List StdoutLine) (st : SpawnState),
      jsTruthy st.capturedSessionId = true →
      ∀ f ∈ (spawnStream inputS proc st lines).2, f.isSessionCreated = false := by
  intro lines
  induction lines with
  | nil => intro st _ f hf; exact absurd hf (List.not_mem_nil f)
  | cons l rest ih =>
    intro st hcap f hf
    cases l with
    | raw s =>
      simp only [spawnStream, handleLine_raw] at hf
      rcases List.mem_append.mp hf with hf | hf
      · rw [List.mem_singleton.mp hf]; rfl
      · exact ih st hcap f hf
    | json sidOpt tag =>
      have hc : (jsTruthy sidOpt && !jsTruthy st.capturedSessionId) = false := by
        rw [hcap]; exact Bool.and_false _
      simp only [spawnStream, handleLine_nocapture inputS proc st sidOpt tag hc] at hf
      rcases List.mem_append.mp hf with hf | hf
      · rw [List.mem_singleton.mp hf]; rfl
      · exact ih st hcap f hf

theorem spawnStream_no_capture (inputS : Option String) (proc : Nat) :
    ∀ (lines : List StdoutLine) (st : SpawnState),
      firstCapturedSid lines = none →
      (spawnStream inputS proc st lines).1 = st ∧
      ∀ f ∈ (spawnStream inputS proc st lines).2, f.isSessionCreated = false := by
  intro lines
  induction lines with
  | nil => intro st _; exact ⟨rfl, fun f hf => absurd hf (List.not_mem_nil f)⟩
  | cons l rest ih =>
    intro st hfc
    cases l with
    | raw s =>
      have hfc' : firstCapturedSid rest = none := hfc
      obtain ⟨ih1, ih2⟩ := ih st hfc'
      constructor
      · simp only [spawnStream, handleLine_raw]
        exact ih1
      · intro f hf
        simp only [spawnStream, handleLine_raw] at hf
        rcases List.mem_append.mp hf with hf | hf
        · rw [List.mem_singleton.mp hf]; rfl
        · exact ih2 f hf
    | json sidOpt tag =>
      have hsb : jsTruthy sidOpt = false := by
        by_contra hne
        have hsb' : jsTruthy sidOpt = true := by
          cases h : jsTruthy sidOpt
          · exact absurd h hne
          · rfl
        unfold firstCapturedSid at hfc
        rw [if_pos hsb'] at hfc
        exact Option.noConfusion hfc
      have hfc' : firstCapturedSid rest = none := by
        unfold firstCapturedSid at hfc
        rw [if_neg (by rw [hsb]; exact Bool.false_ne_true)] at hfc
        exact hfc
      have hc : (jsTruthy sidOpt && !jsTruthy st.capturedSessionId) = false := by
        rw [hsb]; exact Bool.false_and _
      obtain ⟨ih1, ih2⟩ := ih st hfc'
      constructor
      · simp only [spawnStream, handleLine_nocapture inputS proc st sidOpt tag hc]
        exact ih1
      · intro f hf
        simp only [spawnStream,
          handleLine_nocapture inputS proc st sidOpt tag hc] at hf
        rcases List.mem_append.mp hf with hf | hf
        · rw [List.mem_singleton.mp hf]; rfl
        · exact ih2 f hf

theorem firstCapturedSid_ne_empty :
    ∀ (lines : List StdoutLine) (sid : String),
      firstCapturedSid lines = some sid → sid ≠ "" := by
  intro lines
  induction lines with
  | nil => intro sid h; exact absurd h (Option.noConfusion)
  | cons l rest ih =>
    intro sid h
    cases l with
    | raw s => exact ih sid h
    | json sidOpt tag =>
      unfold firstCapturedSid at h
      by_cases hsb : jsTruthy sidOpt = true
      · rw [if_pos hsb] at h
        cases sidOpt with
        | none => exact absurd hsb (by decide)
        | some s =>
          have hs : s ≠ "" := of_decide_eq_true hsb
          have heq : s = sid := Option.some.inj h
          rw [← heq]
          exact hs
      · rw [if_neg hsb] at h
        exact ih sid h

theorem spawnStream_created_decomp (inputS : Option String) (proc : Nat) :
    ∀ (lines : List StdoutLine) (st : SpawnState) (sid : String),
      jsTruthy inputS = false →
      jsTruthy st.capturedSessionId = false →
      st.sessionCreatedSent = false →
      firstCapturedSid lines = some sid →
      ∃ A B, (spawnStream inputS proc st lines).2 =
          A ++ Frame.sessionCreated sid :: B ∧
        (∀ f ∈ A, f.isSessionCreated = false) ∧
        (∀ f ∈ B, f.isSessionCreated = false) ∧
        (∀ t : Nat, Frame.claudeResponse (some sid) t ∉ A) := by
  intro lines
  induction lines with
  | nil => intro st sid _ _ _ hfc; exact absurd hfc (Option.noConfusion)
  | cons l rest ih =>
    intro st sid hin hcap hsent hfc
    cases l with
    | raw s =>
      obtain ⟨A, B, hAB, hA, hB, hAr⟩ := ih st sid hin hcap hsent hfc
      refine ⟨Frame.claudeOutput s :: A, B, ?_, ?_, hB, ?_⟩
      · simp only [spawnStream, handleLine_raw]
        rw [hAB]
        rfl
      · intro f hf
        rcases List.mem_cons.mp hf with hf | hf
        · rw [hf]; rfl
        · exact hA f hf
      · intro t hmem
        rcases List.mem_cons.mp hmem with hmem | hmem
        · exact Frame.noConfusion hmem
        · exact hAr t hmem
    | json sidOpt tag =>
      by_cases hsb : jsTruthy sidOpt = true
      · unfold firstCapturedSid at hfc
        rw [if_pos hsb] at hfc
        have hsid_eq : sidOpt.getD "" = sid := Option.some.inj hfc
        have hne : sid ≠ "" := by
          cases sidOpt with
          | none => exact absurd hsb (by decide)
          | some s =>
            rw [← hsid_eq]
            exact of_decide_eq_true hsb
        obtain ⟨h2frames, h2cap, _, _⟩ :=
          handleLine_capture inputS proc st sidOpt tag hsb hcap hin hsent
        have htr : jsTruthy
            (handleLine inputS proc st (StdoutLine.json sidOpt tag)).1.capturedSessionId
            = true := by
          rw [h2cap, hsid_eq]
          exact decide_eq_true hne
        refine ⟨[], Frame.claudeResponse sidOpt tag ::
          (spawnStream inputS proc
            (handleLine inputS proc st (StdoutLine.json sidOpt tag)).1 rest).2,
          ?_, ?_, ?_, ?_⟩
        · simp only [spawnStream]
          rw [h2frames, hsid_eq]
          rfl
        · intro f hf
          exact absurd hf (List.not_mem_nil f)
        · intro f hf
          rcases List.mem_cons.mp hf with hf | hf
          · rw [hf]; rfl
          · exact spawnStream_no_created_of_captured inputS proc rest _ htr f hf
        · intro t hmem
          exact absurd hmem (List.not_mem_nil _)
      · have hsb' : jsTruthy sidOpt = false := by
          cases h : jsTruthy sidOpt
          · rfl
          · exact absurd h hsb
        unfold firstCapturedSid at hfc
        rw [if_neg hsb] at hfc
        have hc : (jsTruthy sidOpt && !jsTruthy st.capturedSessionId) = false := by
          rw [hsb']
          exact Bool.false_and _
        obtain ⟨A, B, hAB, hA, hB, hAr⟩ := ih st sid hin hcap hsent hfc
        refine ⟨Frame.claudeResponse sidOpt tag :: A, B, ?_, ?_, hB, ?_⟩
        · simp only [spawnStream, handleLine_nocapture inputS proc st sidOpt tag hc]
          rw [hAB]
          rfl
        · intro f hf
          rcases List.mem_cons.mp hf with hf | hf
          · rw [hf]; rfl
          · exact hA f hf
        · intro t hmem
          rcases List.mem_cons.mp hmem with hmem | hmem
          · have h1 : (some sid : Option String) = sidOpt := by
              injection hmem
            have htrue : jsTruthy (some sid) = true :=
              decide_eq_true (firstCapturedSid_ne_empty rest sid hfc)
            rw [← h1] at hsb'
            rw [htrue] at hsb'
            exact Bool.noConfusion hsb'
          · exact hAr t hmem

/-- C7: for an invocation started without a truthy sessionId whose stdout stream
carries a parsed object with a truthy session_id, exactly one session-created
frame is emitted, it carries the first captured session_id, no session-created
frame appears anywhere else, and no claude-response frame carrying that id
precedes it (an id-less response may precede it, see the counterexample); for
invocations started with a known sessionId — and for streams with no
id-carrying object — no session-created frame is ever emitted. -/
theorem spawnRun_session_created (inputS : Option String) (tsKey : String)
    (proc : Nat) (m₀ : List (String × Nat)) (lines : List StdoutLine) :
    (jsTruthy inputS = false →
      ∀ sid, firstCapturedSid lines = some sid →
        ∃ A B, (spawnRun inputS tsKey proc m₀ lines).2 =
            A ++ Frame.sessionCreated sid :: B ∧
          (∀ f ∈ A, f.isSessionCreated = false) ∧
          (∀ f ∈ B, f.isSessionCreated = false) ∧
          (∀ t : Nat, Frame.claudeResponse (some sid) t ∉ A)) ∧
    (jsTruthy inputS = true →
      ∀ f ∈ (spawnRun inputS tsKey proc m₀ lines).2, f.isSessionCreated = false) ∧
    (firstCapturedSid lines = none →
      ∀ f ∈ (spawnRun inputS tsKey proc m₀ lines).2, f.isSessionCreated = false) := by
  refine ⟨?_, ?_, ?_⟩
  · intro hin sid hfc
    exact spawnStream_created_decomp inputS proc lines
      (spawnInit inputS tsKey proc m₀) sid hin hin rfl hfc
  · intro hin
    exact spawnStream_no_created_of_captured inputS proc lines
      (spawnInit inputS tsKey proc m₀) hin
  · intro hfc
    exact (spawnStream_no_capture inputS proc lines
      (spawnInit inputS tsKey proc m₀) hfc).2

theorem spawnRun_session_created_witness :
    (∃ A B, (spawnRun none "ts0" 7 [] [StdoutLine.json none 0,
        StdoutLine.json (some "abc") 1]).2 = A ++ Frame.sessionCreated "abc" :: B ∧
      (∀ f ∈ A, f.isSessionCreated = false) ∧
      (∀ f ∈ B, f.isSessionCreated = false) ∧
      (∀ t : Nat, Frame.claudeResponse (some "abc") t ∉ A)) ∧
    (∀ f ∈ (spawnRun (some "xyz") "ts0" 7 [] [StdoutLine.json (some "abc") 1]).2,
      f.isSessionCreated = false) ∧
    (∀ f ∈ (spawnRun none "ts0" 7 [] [StdoutLine.raw "hi"]).2,
      f.isSessionCreated = false) := by
  refine ⟨?_, ?_, ?_⟩
  · exact (spawnRun_session_created none "ts0" 7 []
      [StdoutLine.json none 0, StdoutLine.json (some "abc") 1]).1 rfl "abc" (by decide)
  · exact (spawnRun_session_created (some "xyz") "ts0" 7 []
      [StdoutLine.json (some "abc") 1]).2.1 (by decide)
  · exact (spawnRun_session_created none "ts0" 7 []
      [StdoutLine.raw "hi"]).2.2 (by decide)

theorem spawnStream_append_fst (inputS : Option String) (proc : Nat) :
    ∀ (xs ys : List StdoutLine) (st : SpawnState),
      (spawnStream inputS proc st (xs ++ ys)).1 =
        (spawnStream inputS proc (spawnStream inputS proc st xs).1 ys).1 := by
  intro xs
  induction xs with
  | nil => intro ys st; rfl
  | cons l rest ih =>
    intro ys st
    simp only [spawnStream]
    exact ih ys _

/-- C10: for an invocation spawned without an options.sessionId, the live-process
map keys the child only under the generated timestamp string until the first
stdout object carrying a session_id is parsed; in that window abort with any
other id returns false and leaves the map unchanged, and after capture the entry
is re-keyed to the captured id, under which abort succeeds exactly once. -/
theorem activeProcesses_keying (inputS : Option String) (tsKey sid : String)
    (proc : Nat) (pre : List StdoutLine) (tag : Nat)
    (hin : jsTruthy inputS = false) (hpre : firstCapturedSid pre = none)
    (hsid : sid ≠ "") (hkey : sid ≠ tsKey) :
    (spawnInit inputS tsKey proc []).processes = [(tsKey, proc)] ∧
    (spawnStream inputS proc (spawnInit inputS tsKey proc []) pre).1.processes =
      [(tsKey, proc)] ∧
    (∀ q : String, q ≠ tsKey →
      abortClaudeSession [(tsKey, proc)] q = (false, [(tsKey, proc)])) ∧
    (spawnStream inputS proc (spawnInit inputS tsKey proc [])
      (pre ++ [StdoutLine.json (some sid) tag])).1.processes = [(sid, proc)] ∧
    abortClaudeSession [(sid, proc)] sid = (true, []) ∧
    (abortClaudeSession (abortClaudeSession [(sid, proc)] sid).2 sid).1 = false := by
  have hinit : (spawnInit inputS tsKey proc []).processes = [(tsKey, proc)] := by
    simp only [spawnInit, hin]
    rfl
  have hkey0 : (spawnInit inputS tsKey proc []).processKey = tsKey := by
    simp only [spawnInit, hin]
    rfl
  have hpre1 : (spawnStream inputS proc (spawnInit inputS tsKey proc []) pre).1 =
      spawnInit inputS tsKey proc [] :=
    (spawnStream_no_capture inputS proc pre (spawnInit inputS tsKey proc []) hpre).1
  refine ⟨hinit, ?_, ?_, ?_, ?_, ?_⟩
  · rw [hpre1, hinit]
  · intro q hq
    unfold abortClaudeSession
    have hl : List.lookup q [(tsKey, proc)] = none := by
      simp [List.lookup, beq_false_of_ne hq]
    rw [hl]
  · rw [spawnStream_append_fst inputS proc pre [StdoutLine.json (some sid) tag]
      (spawnInit inputS tsKey proc []), hpre1]
    have hsb : jsTruthy (some sid) = true := decide_eq_true hsid
    have hcap : jsTruthy (spawnInit inputS tsKey proc []).capturedSessionId
        = false := hin
    obtain ⟨_, _, _, h4⟩ := handleLine_capture inputS proc
      (spawnInit inputS tsKey proc []) (some sid) tag hsb hcap hin rfl
    show (handleLine inputS proc (spawnInit inputS tsKey proc [])
      (StdoutLine.json (some sid) tag)).1.processes = [(sid, proc)]
    rw [h4]
    have hg : (some sid).getD "" = sid := rfl
    rw [hg, hkey0, hinit]
    rw [if_pos (Ne.symm hkey)]
    have hdel : mapDelete [(tsKey, proc)] tsKey = [] := by
      simp [mapDelete]
    rw [hdel]
    rfl
  · unfold abortClaudeSession
    have hl : List.lookup sid [(sid, proc)] = some proc := by
      simp [List.lookup]
    rw [hl]
    have hdel : mapDelete [(sid, proc)] sid = [] := by
      simp [mapDelete]
    rw [hdel]
  · unfold abortClaudeSession
    have hl : List.lookup sid [(sid, proc)] = some proc := by
      simp [List.lookup]
    rw [hl]
    have hdel : mapDelete [(sid, proc)] sid = [] := by
      simp [mapDelete]
    simp [hdel, abortClaudeSession]

theorem activeProcesses_keying_witness :
    (spawnInit none "ts0" 7 []).processes = [("ts0", 7)] ∧
    (spawnStream none 7 (spawnInit none "ts0" 7 []) [StdoutLine.raw "hi"]).1.processes
      = [("ts0", 7)] ∧
    (∀ q : String, q ≠ "ts0" →
      abortClaudeSession [("ts0", 7)] q = (false, [("ts0", 7)])) ∧
    (spawnStream none 7 (spawnInit none "ts0" 7 [])
      ([StdoutLine.raw "hi"] ++ [StdoutLine.json (some "abc") 1])).1.processes =
      [("abc", 7)] ∧
    abortClaudeSession [("abc", 7)] "abc" = (true, []) ∧
    (abortClaudeSession (abortClaudeSession [("abc", 7)] "abc").2 "abc").1 = false :=
  activeProcesses_keying none "ts0" "abc" 7 [StdoutLine.raw "hi"] 1
    rfl (by decide) (by decide) (by decide)

/-! ## Project rename (projectConfig, part_007 renameProject lines 183-197) -/

/-- One sidecar entry of `~/.claude/project-config.json`. -/
structure ProjectConfigEntry where
  manuallyAdded : Option Bool
  originalPath : Option String
  displayName : Option String
deriving DecidableEq

/-- JS `String.prototype.trim()`. -/
def jsTrim (s : String) : String :=
  String.mk (((s.data.dropWhile Char.isWhitespace).reverse.dropWhile
    Char.isWhitespace).reverse)

/-- Embedding of `renameProject` on the loaded config object: an empty or blank
new display name executes `delete config[projectName]`; otherwise the entry is
created if absent (`config[projectName] || {}`) and its `displayName` field set
to the trimmed name. -/
def renameProject (config : List (String × ProjectConfigEntry))
    (projectName : String) (newDisplayName : String) :
    List (String × ProjectConfigEntry) :=
  if newDisplayName = "" ∨ jsTrim newDisplayName = "" then
    mapDelete config projectName
  else
    let entry := (List.lookup projectName config).getD ⟨none, none, none⟩
    mapSet config projectName
      { entry with displayName := some (jsTrim newDisplayName) }

theorem lookup_mapDelete {α : Type} (k k' : String) :
    ∀ m : List (String × α),
      List.lookup k' (mapDelete m k) = if k' = k then none else List.lookup k' m := by
  intro m
  induction m with
  | nil =>
    by_cases h : k' = k
    · rw [if_pos h]; rfl
    · rw [if_neg h]; rfl
  | cons p rest ih =>
    obtain ⟨pk, pv⟩ := p
    show List.lookup k' (List.filter (fun p => decide (p.1 ≠ k))
      ((pk, pv) :: rest)) = _
    rw [List.filter_cons]
    by_cases hpk : pk = k
    · have hdec : (decide ((pk, pv).1 ≠ k)) = false := by simp [hpk]
      rw [hdec, if_neg Bool.false_ne_true]
      rw [show List.filter (fun p => decide (p.1 ≠ k)) rest = mapDelete rest k
        from rfl]
      rw [ih]
      by_cases hk : k' = k
      · rw [if_pos hk, if_pos hk]
      · rw [if_neg hk, if_neg hk]
        have hb : (k' == pk) = false := beq_false_of_ne (by rw [hpk]; exact hk)
        simp [List.lookup, hb]
    · have hdec : (decide ((pk, pv).1 ≠ k)) = true := by simp [hpk]
      rw [hdec, if_pos rfl]
      by_cases hk' : k' = pk
      · have hkk : ¬ k' = k := by rw [hk']; exact hpk
        rw [if_neg hkk]
        have hb : (k' == pk) = true := by rw [hk']; exact beq_self_eq_true pk
        simp [List.lookup, hb]
      · have hb : (k' == pk) = false := beq_false_of_ne hk'
        simp only [List.lookup, hb]
        rw [show List.filter (fun p => decide (p.1 ≠ k)) rest = mapDelete rest k
          from rfl]
        rw [ih]

/-- C8 counterexample: renaming an alias to the empty string does not clear only
the display-name override — it deletes the alias's whole sidecar entry, so a
manually added project's `manuallyAdded` and `originalPath` attributes are lost
with it. -/
theorem renameProject_empty_deletes_entry :
    renameProject [("alias", ⟨some true, some "/p", some "n"⟩)] "alias" "" = [] ∧
    List.lookup "alias"
      (renameProject [("alias", ⟨some true, some "/p", some "n"⟩)] "alias" "") =
      none := by
  constructor
  · decide
  · decide

/-- C8 amended: a blank rename removes the alias's entire sidecar entry (all its
fields, not only the display name); a non-blank rename sets exactly the
`displayName` field of that alias's entry (creating it when absent) and keeps its
other fields; entries of every other alias are untouched by any rename. -/
theorem renameProject_spec (config : List (String × ProjectConfigEntry))
    (aliasName nd : String) :
    (jsTrim nd = "" →
      List.lookup aliasName (renameProject config aliasName nd) = none) ∧
    (jsTrim nd ≠ "" →
      List.lookup aliasName (renameProject config aliasName nd) =
        some { (List.lookup aliasName config).getD ⟨none, none, none⟩ with
               displayName := some (jsTrim nd) }) ∧
    (∀ other, other ≠ aliasName →
      List.lookup other (renameProject config aliasName nd) =
        List.lookup other config) := by
  refine ⟨?_, ?_, ?_⟩
  · intro h
    unfold renameProject
    rw [if_pos (Or.inr h)]
    rw [lookup_mapDelete aliasName aliasName config, if_pos rfl]
  · intro h
    have hcond : ¬(nd = "" ∨ jsTrim nd = "") := by
      rintro (hc | hc)
      · apply h; rw [hc]; rfl
      · exact h hc
    unfold renameProject
    rw [if_neg hcond]
    rw [lookup_mapSet, if_pos rfl]
  · intro other hne
    unfold renameProject
    by_cases hcond : nd = "" ∨ jsTrim nd = ""
    · rw [if_pos hcond]
      rw [lookup_mapDelete aliasName other config, if_neg hne]
    · rw [if_neg hcond]
      rw [lookup_mapSet, if_neg hne]

theorem renameProject_spec_witness :
    List.lookup "alias"
      (renameProject [("alias", ⟨some true, some "/p", some "n"⟩)] "alias" " ") =
      none ∧
    List.lookup "alias"
      (renameProject [("alias", ⟨some true, some "/p", some "n"⟩)]
        "alias" " nn ") = some ⟨some true, some "/p", some "nn"⟩ ∧
    List.lookup "other"
      (renameProject [("alias", ⟨some true, some "/p", some "n"⟩),
        ("other", ⟨none, none, some "o"⟩)] "alias" " nn ") =
      some ⟨none, none, some "o"⟩ := by
  refine ⟨?_, ?_, ?_⟩
  · exact (renameProject_spec [("alias", ⟨some true, some "/p", some "n"⟩)]
      "alias" " ").1 (by decide)
  · have h := (renameProject_spec [("alias", ⟨some true, some "/p", some "n"⟩)]
      "alias" " nn ").2.1 (by decide)
    rw [h]
    decide
  · have h := (renameProject_spec [("alias", ⟨some true, some "/p", some "n"⟩),
      ("other", ⟨none, none, some "o"⟩)] "alias" " nn ").2.2 "other" (by decide)
    rw [h]
    decide
